import Mathlib

/-!
# signify: record codec and sign / verify protocol

A shallow embedding of `api.go` and `generic.go` of the `signify` package.

* A Go `byte` is a `Fin 256`; a Go array `[n]byte` is a list of bytes of length `n`
  (`ByteArr n`); a Go slice `[]byte` is `Slice`, which keeps the `nil` slice apart from
  an empty one, since the code tests `== nil`.
* A Go `string` is a `String` (the Go strings that are valid UTF-8; the base64 decoder
  stops at the first character outside ASCII, so character and byte offsets agree);
  a Go `error` is an `Option Error`, `none` being `nil`.
* A method with a pointer receiver returns the updated receiver next to its results.
* The Ed25519 primitive of `crypto/ed25519` is a parameter (`Ed25519`); the standard
  base64 codec of `encoding/base64` is embedded as `EncodeToString` / `DecodeString`.
-/

namespace Signify

/-! ## Bytes, arrays, slices, errors -/

/-- A Go `byte`. -/
abbrev Byte := Fin 256

/-- The Go conversion `byte(n)` of an unsigned integer: the low eight bits. -/
def byteOf (n : Nat) : Byte := ⟨n % 256, Nat.mod_lt n (by decide)⟩

/-- A Go array `[n]byte`. -/
abbrev ByteArr (n : Nat) := { l : List Byte // l.length = n }

/-- The zero value of `[n]byte`. -/
def ByteArr.zero (n : Nat) : ByteArr n := ⟨List.replicate n 0, List.length_replicate n 0⟩

/-- A Go slice `[]byte`: either `nil` or a (possibly empty) run of bytes. -/
inductive Slice where
  | nil : Slice
  | of (data : List Byte) : Slice
deriving DecidableEq, Repr

/-- The bytes a slice holds; a `nil` slice holds none. -/
def Slice.bytes : Slice → List Byte
  | .nil => []
  | .of data => data

/-- Go `len(s)`. -/
def Slice.len (s : Slice) : Nat := s.bytes.length

/-- Go `s == nil`. -/
def Slice.isNil : Slice → Bool
  | .nil => true
  | .of _ => false

/-- Go `s[lo:]` on a slice, for `lo ≤ len(s)`; slicing `nil` (then `lo = 0`) gives `nil`. -/
def Slice.sliceFrom : Slice → Nat → Slice
  | .nil, _ => .nil
  | .of data, lo => .of (data.drop lo)

/-- Go `s[lo:hi]` on a non-nil slice, for `lo ≤ hi ≤ len(s)`. -/
def Slice.slice : Slice → Nat → Nat → Slice
  | .nil, _, _ => .nil
  | .of data, lo, hi => .of ((data.take hi).drop lo)

/-- Go `a[lo:]` on an array: never `nil`. -/
def ByteArr.sliceFrom {n : Nat} (a : ByteArr n) (lo : Nat) : Slice := .of (a.val.drop lo)

/-- Go `a[:hi]` on an array: never `nil`. -/
def ByteArr.sliceTo {n : Nat} (a : ByteArr n) (hi : Nat) : Slice := .of (a.val.take hi)

/-- Go `a[:]` on an array: never `nil`. -/
def ByteArr.sliceAll {n : Nat} (a : ByteArr n) : Slice := a.sliceFrom 0

/-- Go `copy(dst[:], src)`: the first `min(n, len(src))` bytes of `dst` are overwritten. -/
def ByteArr.copyFrom {n : Nat} (dst : ByteArr n) (src : Slice) : ByteArr n :=
  ⟨src.bytes.take n ++ dst.val.drop src.bytes.length, by
    have h := dst.property
    simp only [List.length_append, List.length_take, List.length_drop, h]
    omega⟩

/-- A Go `error` value of this package: either made by `errors.New`, or a
`base64.CorruptInputError` carrying the offending input offset. -/
inductive Error where
  | new (text : String) : Error
  | corruptInput (offset : Nat) : Error
deriving DecidableEq, Repr

/-- The method `Error()` of an error value: its text. -/
def Error.text : Error → String
  | .new text => text
  | .corruptInput offset => "illegal base64 data at input byte " ++ toString offset

/-- The text `err.Error()` of a Go `error`; the code only asks for it on a non-nil error. -/
def errorText : Option Error → String
  | some e => e.text
  | none => ""

/-! ## `encoding/base64`, `StdEncoding` -/

/-- The alphabet of `base64.StdEncoding`. -/
def encodeStd : List Char :=
  "ABCDEFGHIJKLMNOPQRSTUVWXYZabcdefghijklmnopqrstuvwxyz0123456789+/".toList

/-- Table `enc.encode`: the character of a 6-bit value. -/
def encodeChar (v : Nat) : Char := encodeStd.getD (v % 64) 'A'

/-- Table `enc.decodeMap`: the 6-bit value of an alphabet character (`none` is `0xff`). -/
def decodeMap (c : Char) : Option Nat :=
  if encodeStd.indexOf c < 64 then some (encodeStd.indexOf c) else none

/-- The padding character. -/
def padChar : Char := '='

/-- `Encoding.Encode`: three bytes give four characters; a rest of one or two bytes is
padded with `=`. The shifts and masks of the source are written as `/` and `%`. -/
def encodeChars : List Byte → List Char
  | [] => []
  | [a] =>
    let val := a.val * 65536
    [encodeChar (val / 262144 % 64), encodeChar (val / 4096 % 64), padChar, padChar]
  | [a, b] =>
    let val := a.val * 65536 + b.val * 256
    [encodeChar (val / 262144 % 64), encodeChar (val / 4096 % 64),
      encodeChar (val / 64 % 64), padChar]
  | a :: b :: c :: rest =>
    let val := a.val * 65536 + b.val * 256 + c.val
    encodeChar (val / 262144 % 64) :: encodeChar (val / 4096 % 64) ::
      encodeChar (val / 64 % 64) :: encodeChar (val % 64) :: encodeChars rest

/-- Go `base64.StdEncoding.EncodeToString`. -/
def EncodeToString (src : List Byte) : String := String.mk (encodeChars src)

/-- Line breaks, which the decoder skips. -/
def isNewline (c : Char) : Bool := c == '\n' || c == '\r'

/-- The loop `for si < len(src) && (src[si] == '\n' || src[si] == '\r') { si++ }`. -/
def skipNewlines : List Char → Nat → List Char × Nat
  | [], si => ([], si)
  | c :: rest, si => if isNewline c then skipNewlines rest (si + 1) else (c :: rest, si)

/-- The three bytes of a quantum `dbuf` of 6-bit values (missing ones count as zero):
`val := dbuf[0]<<18 | dbuf[1]<<12 | dbuf[2]<<6 | dbuf[3]`, then `val>>16, val>>8, val`. -/
def quantumBytes (dbuf : List Nat) : List Byte :=
  let val := dbuf.getD 0 0 * 262144 + dbuf.getD 1 0 * 4096 + dbuf.getD 2 0 * 64 + dbuf.getD 3 0
  [byteOf (val / 65536), byteOf (val / 256), byteOf val]

/-- `Encoding.Decode` with `decodeQuantum` for `StdEncoding` (padded, not strict): `si` is
the offset of the head of the input, `dbuf` the 6-bit values read for the current quantum
and `dst` the bytes decoded so far. The result is the bytes decoded (`dbuf[:n]` of
`DecodeString`) and the error. -/
def decodeLoop : List Char → Nat → List Nat → List Byte → List Byte × Option Error
  | [], si, dbuf, dst =>
    if dbuf.length = 0 then (dst, none)
    else (dst, some (.corruptInput (si - dbuf.length)))
  | c :: rest, si, dbuf, dst =>
    match decodeMap c with
    | some out =>
      if dbuf.length + 1 = 4 then decodeLoop rest (si + 1) [] (dst ++ quantumBytes (dbuf ++ [out]))
      else decodeLoop rest (si + 1) (dbuf ++ [out]) dst
    | none =>
      if isNewline c then decodeLoop rest (si + 1) dbuf dst
      else if c ≠ padChar then (dst, some (.corruptInput si))
      else if dbuf.length < 2 then (dst, some (.corruptInput si))
      else if dbuf.length = 2 then
        match skipNewlines rest (si + 1) with
        | ([], si1) => (dst, some (.corruptInput si1))
        | (c1 :: rest1, si1) =>
          if c1 ≠ padChar then (dst, some (.corruptInput (si1 - 1)))
          else
            match skipNewlines rest1 (si1 + 1) with
            | ([], _) => (dst ++ (quantumBytes dbuf).take 1, none)
            | (_ :: _, si2) => (dst ++ (quantumBytes dbuf).take 1, some (.corruptInput si2))
      else
        match skipNewlines rest (si + 1) with
        | ([], _) => (dst ++ (quantumBytes dbuf).take 2, none)
        | (_ :: _, si2) => (dst ++ (quantumBytes dbuf).take 2, some (.corruptInput si2))

/-- Go `base64.StdEncoding.DecodeString`: the bytes decoded and the error. -/
def DecodeString (s : String) : List Byte × Option Error := decodeLoop s.toList 0 [] []

/-! ## `generic.go` -/

def _pubUT : String := " signify public key"

def _pkUT : String := " signify private key"

def _empty : String := ""

def _space : String := " "

def _linefeed : String := "\n"

def _untrustedComment : String := "untrusted comment:"

def _verifyThisKeyGenMessage : String := "Nachts sind alle blauen Katzen grau!"

/-- Go `[]byte(s)`: the UTF-8 bytes of the string, in a slice that is never `nil`. -/
def bytesOfString (s : String) : Slice :=
  .of ((s.toList.flatMap String.utf8EncodeChar).map (fun b => byteOf b.toNat))

/-- The tag `[2]byte{'E', 'd'}`. -/
def _algoEd25519 : ByteArr 2 := ⟨[byteOf 'E'.toNat, byteOf 'd'.toNat], rfl⟩

/-- Source `enc`. -/
def enc (raw : Slice) : String × Option Error :=
  if raw.isNil then (_empty, some (.new "base64 encode: no raw message"))
  else (EncodeToString raw.bytes, none)

/-- Source `dec`. -/
def dec (b64 : String) : Slice × Option Error :=
  if b64 = _empty then (.nil, some (.new "base64 decode: no base64 message"))
  else (.of (DecodeString b64).1, (DecodeString b64).2)

/-- Source `sliceTo64`. -/
def sliceTo64 (input : Slice) : ByteArr 64 × Option Error :=
  if input.len ≠ 64 then (ByteArr.zero 64, some (.new "internal: sliceTo64 failed, input lengh"))
  else ((ByteArr.zero 64).copyFrom (input.sliceFrom 0), none)

/-- Source `sliceTo32`. -/
def sliceTo32 (input : Slice) : ByteArr 32 × Option Error :=
  if input.len ≠ 32 then (ByteArr.zero 32, some (.new "internal: sliceTo32 failed, input lengh"))
  else ((ByteArr.zero 32).copyFrom (input.sliceFrom 0), none)

/-- Source `sliceTo8`. -/
def sliceTo8 (input : Slice) : ByteArr 8 × Option Error :=
  if input.len ≠ 8 then (ByteArr.zero 8, some (.new "internal: sliceTo8 failed, input lengh"))
  else ((ByteArr.zero 8).copyFrom (input.sliceFrom 0), none)

/-- Source `sliceTo2`. -/
def sliceTo2 (input : Slice) : ByteArr 2 × Option Error :=
  if input.len ≠ 2 then (ByteArr.zero 2, some (.new "internal: sliceTo2 failed, input lengh"))
  else ((ByteArr.zero 2).copyFrom (input.sliceFrom 0), none)

/-! ## `api.go`: constants and records -/

def PrivateKeySize : Nat := 64

def PublicKeySize : Nat := 32

def SignatureSize : Nat := 64

def PrivatePublicKeyOffset : Nat := PrivateKeySize - PublicKeySize

def SeedSize : Nat := 32

def FingerPrintSize : Nat := 8

def KeyAlgoSize : Nat := 2

def SeedTokenSize : Nat := SeedSize + FingerPrintSize

abbrev KeyAlgo := ByteArr 2

abbrev FingerPrint := ByteArr 8

structure RawSignature where
  PKAlgo : KeyAlgo
  Fingerprint : FingerPrint
  RawSig : ByteArr 64
deriving DecidableEq

structure Signature where
  Base64 : String
  Raw : RawSignature
deriving DecidableEq

structure RawPublicKey where
  PKAlgo : KeyAlgo
  Fingerprint : FingerPrint
  RawKey : ByteArr 32
deriving DecidableEq

structure PublicKey where
  Base64 : String
  Raw : RawPublicKey
deriving DecidableEq

structure RawPrivateKey where
  PKAlgo : KeyAlgo
  Fingerprint : FingerPrint
  RawKey : ByteArr 64
deriving DecidableEq

structure PrivateKey where
  Base64 : String
  Raw : RawPrivateKey
deriving DecidableEq

structure Message where
  Base64 : String
  Raw : Slice
  UntrustedComment : String
  Signature : Signature
  PublicKey : PublicKey
deriving DecidableEq

/-- The primitive of `crypto/ed25519`, on the bytes of its slice arguments:
`NewKeyFromSeed(seed)`, `Sign(privateKey, message)` and
`Verify(publicKey, message, sig)`. -/
structure Ed25519 where
  NewKeyFromSeed : List Byte → List Byte
  Sign : List Byte → List Byte → List Byte
  Verify : List Byte → List Byte → List Byte → Bool

/-- Source `NewSignature`. -/
def NewSignature : Signature :=
  ⟨"", ⟨_algoEd25519, ByteArr.zero 8, ByteArr.zero 64⟩⟩

/-- Source `NewPublicKey`. -/
def NewPublicKey : PublicKey :=
  ⟨"", ⟨_algoEd25519, ByteArr.zero 8, ByteArr.zero 32⟩⟩

/-- Source `NewPrivateKey`. -/
def NewPrivateKey : PrivateKey :=
  ⟨"", ⟨_algoEd25519, ByteArr.zero 8, ByteArr.zero 64⟩⟩

/-- Go `binary.Write(&buf, binary.BigEndian, pub.Raw)` followed by `buf.Bytes()`: the
fields in declaration order; for a struct of byte arrays the write cannot fail. -/
def RawPublicKey.binaryWrite (r : RawPublicKey) : Slice :=
  .of (r.PKAlgo.val ++ r.Fingerprint.val ++ r.RawKey.val)

/-- Go `binary.Write(&buf, binary.BigEndian, sig.Raw)` followed by `buf.Bytes()`. -/
def RawSignature.binaryWrite (r : RawSignature) : Slice :=
  .of (r.PKAlgo.val ++ r.Fingerprint.val ++ r.RawSig.val)

/-- Source `(*PublicKey).Encode`. -/
def PublicKey.Encode (pub : PublicKey) : PublicKey × Option Error :=
  let r := enc pub.Raw.binaryWrite
  match r.2 with
  | some e => ({ pub with Base64 := r.1 }, some e)
  | none => ({ pub with Base64 := r.1 }, none)

/-- Source `(*PublicKey).Decode`. -/
def PublicKey.Decode (pub : PublicKey) : PublicKey × Option Error :=
  let d := dec pub.Base64
  match d.2 with
  | some e => (pub, some e)
  | none =>
    let s := d.1
    if s.len ≠ KeyAlgoSize + FingerPrintSize + PublicKeySize then
      (pub, some (.new "invalid base64 pulic key size"))
    else
      let a := sliceTo2 (s.slice 0 KeyAlgoSize)
      let pub1 := { pub with Raw := { pub.Raw with PKAlgo := a.1 } }
      match a.2 with
      | some e => (pub1, some e)
      | none =>
        let f := sliceTo8 (s.slice KeyAlgoSize (KeyAlgoSize + FingerPrintSize))
        let pub2 := { pub1 with Raw := { pub1.Raw with Fingerprint := f.1 } }
        match f.2 with
        | some e => (pub2, some e)
        | none =>
          let k := sliceTo32 (s.sliceFrom (KeyAlgoSize + FingerPrintSize))
          ({ pub2 with Raw := { pub2.Raw with RawKey := k.1 } }, k.2)

/-- Source `(*Signature).Encode`. -/
def Signature.Encode (sig : Signature) : Signature × Option Error :=
  let r := enc sig.Raw.binaryWrite
  match r.2 with
  | some e => ({ sig with Base64 := r.1 }, some e)
  | none => ({ sig with Base64 := r.1 }, none)

/-- Source `(*Signature).Decode`. -/
def Signature.Decode (sig : Signature) : Signature × Option Error :=
  let d := dec sig.Base64
  match d.2 with
  | some e => (sig, some e)
  | none =>
    let s := d.1
    if s.len ≠ KeyAlgoSize + FingerPrintSize + SignatureSize then
      (sig, some (.new "invalid base64 signature size"))
    else
      let a := sliceTo2 (s.slice 0 KeyAlgoSize)
      let sig1 := { sig with Raw := { sig.Raw with PKAlgo := a.1 } }
      match a.2 with
      | some e => (sig1, some e)
      | none =>
        let f := sliceTo8 (s.slice KeyAlgoSize (KeyAlgoSize + FingerPrintSize))
        let sig2 := { sig1 with Raw := { sig1.Raw with Fingerprint := f.1 } }
        match f.2 with
        | some e => (sig2, some e)
        | none =>
          let k := sliceTo64 (s.sliceFrom (KeyAlgoSize + FingerPrintSize))
          ({ sig2 with Raw := { sig2.Raw with RawSig := k.1 } }, k.2)

/-- Source `PrivateKey.GetPublicKey`. -/
def PrivateKey.GetPublicKey (pk : PrivateKey) : PublicKey :=
  let pub := NewPublicKey
  let pub1 := { pub with Raw := { pub.Raw with Fingerprint := pk.Raw.Fingerprint } }
  { pub1 with Raw := { pub1.Raw with
      RawKey := pub1.Raw.RawKey.copyFrom (pk.Raw.RawKey.sliceFrom PrivatePublicKeyOffset) } }

/-- Source `(*Message).Encode`. -/
def Message.Encode (msg : Message) : Message × Option Error :=
  let r := enc (msg.Raw.sliceFrom 0)
  ({ msg with Base64 := r.1 }, r.2)

/-- Source `(*Message).Decode`. -/
def Message.Decode (msg : Message) : Message × Option Error :=
  let d := dec msg.Base64
  ({ msg with Raw := d.1 }, d.2)

/-- Source `(*Message).Verify`, the part after the decoding `switch`: the fingerprint
check, the algorithm check and the call of the primitive. It does not change the message. -/
def Message.verifyChecks (ed : Ed25519) (msg : Message) (pub : Signify.PublicKey) :
    Bool × Option Error :=
  if msg.Signature.Raw.Fingerprint ≠ msg.PublicKey.Raw.Fingerprint then
    (false, some (.new "fingerprint matching failed: wrong public key for message"))
  else if msg.Signature.Raw.PKAlgo = _algoEd25519 ∧ pub.Raw.PKAlgo = _algoEd25519 then
    if !ed.Verify pub.Raw.RawKey.sliceAll.bytes msg.Raw.bytes
        msg.Signature.Raw.RawSig.sliceAll.bytes then
      (false, some (.new "ed25519 signature verification failed"))
    else (true, none)
  else (false, some (.new "unknown signature Algo"))

/-- Source `(*Message).Verify`: the message after the call, the boolean and the error.
The public key is passed by value, so its decoding stays local. -/
def Message.Verify (ed : Ed25519) (msg : Message) (pub : Signify.PublicKey) :
    Message × Bool × Option Error :=
  if pub.Raw.RawKey.sliceAll.isNil then
    match pub.Decode with
    | (_, some _) => (msg, false, some (.new "verify failed: no public key found"))
    | (pub1, none) => (msg, Message.verifyChecks ed msg pub1)
  else if msg.Raw.isNil then
    match msg.Decode with
    | (msg1, some e) =>
      (msg1, false, some (.new ("verify failed: no raw message and " ++ e.text)))
    | (msg1, none) => (msg1, Message.verifyChecks ed msg1 pub)
  else (msg, Message.verifyChecks ed msg pub)

/-- Source `(*Message).Sign`, the part after the first `switch`: the key and fingerprint
are recorded, the signature is made, verified and encoded. -/
def Message.signSteps (ed : Ed25519) (msg : Message) (pk : PrivateKey) :
    Message × Option Error :=
  let msg1 := { msg with PublicKey := pk.GetPublicKey }
  let msg2 := { msg1 with
    Signature := { msg1.Signature with
      Raw := { msg1.Signature.Raw with Fingerprint := pk.Raw.Fingerprint } } }
  if pk.Raw.PKAlgo = _algoEd25519 then
    let msg3 := { msg2 with
      Signature := { msg2.Signature with
        Raw := { msg2.Signature.Raw with PKAlgo := _algoEd25519 } } }
    let key : Slice := .of (ed.Sign pk.Raw.RawKey.sliceAll.bytes msg3.Raw.bytes)
    let r := sliceTo64 key
    let msg4 := { msg3 with
      Signature := { msg3.Signature with Raw := { msg3.Signature.Raw with RawSig := r.1 } } }
    match r.2 with
    | some e => (msg4, some e)
    | none =>
      match Message.Verify ed msg4 pk.GetPublicKey with
      | (msg5, false, err) =>
        (msg5, some (.new ("sign failed: verify after sign: " ++ errorText err)))
      | (msg5, true, _) =>
        match msg5.Signature.Encode with
        | (sig, some e) =>
          ({ msg5 with Signature := sig },
            some (.new ("sign failed: unable to encode signature: " ++ e.text)))
        | (sig, none) => ({ msg5 with Signature := sig }, none)
  else (msg2, some (.new "unknown signature Algo"))

/-- Source `(*Message).Sign`: the message after the call and the error. -/
def Message.Sign (ed : Ed25519) (msg : Message) (pk : PrivateKey) : Message × Option Error :=
  if pk.Raw.RawKey.sliceAll.isNil then
    (msg, some (.new "sign failed: no private key found"))
  else if msg.Raw.isNil then
    match msg.Decode with
    | (msg1, some e) => (msg1, some (.new ("sign failed: no raw message and " ++ e.text)))
    | (msg1, none) => Message.signSteps ed msg1 pk
  else Message.signSteps ed msg pk

/-- Source `GeneratePKFromSeed`; `.error` is a panic with its text. -/
def GeneratePKFromSeed (ed : Ed25519) (seedToken : ByteArr 40) : Except String PrivateKey :=
  let pk := NewPrivateKey
  let f := sliceTo8 (seedToken.sliceFrom SeedSize)
  let pk1 := { pk with Raw := { pk.Raw with Fingerprint := f.1 } }
  match f.2 with
  | some e => .error ("internal: generate keypair: " ++ e.text)
  | none =>
    let k := sliceTo64 (.of (ed.NewKeyFromSeed (seedToken.sliceTo SeedSize).bytes))
    let pk2 := { pk1 with Raw := { pk1.Raw with RawKey := k.1 } }
    match k.2 with
    | some e => .error ("internal: generate keypair: " ++ e.text)
    | none =>
      let msg : Message :=
        ⟨"", bytesOfString _verifyThisKeyGenMessage, "",
          ⟨"", ⟨ByteArr.zero 2, ByteArr.zero 8, ByteArr.zero 64⟩⟩,
          ⟨"", ⟨ByteArr.zero 2, ByteArr.zero 8, ByteArr.zero 32⟩⟩⟩
      match (Message.Sign ed msg pk2).2 with
      | some e => .error ("internal: generate keypair: " ++ e.text)
      | none => .ok pk2

/-- Source `(*Message).GetSigFile`: the message after the call, the file and the error. -/
def Message.GetSigFile (ed : Ed25519) (msg : Message) (pk : PrivateKey) :
    Message × Slice × Option Error :=
  match Message.Sign ed msg pk with
  | (msg1, some e) => (msg1, .nil, some (.new ("generate sig file: " ++ e.text)))
  | (msg1, none) =>
    (msg1,
      bytesOfString (_untrustedComment ++ msg1.UntrustedComment ++ _linefeed ++
        msg1.Signature.Base64 ++ _linefeed),
      none)

/-- Source `PublicKey.GetPubKeyFile`: the receiver is a copy, so only the file and the
error come back; the `strings.Builder` writes are a concatenation. -/
def PublicKey.GetPubKeyFile (pub : PublicKey) (addUntrusted : String) : Slice × Option Error :=
  let r : PublicKey × Option Error := if pub.Base64 = _empty then pub.Encode else (pub, none)
  match r with
  | (_, some e) =>
    (.nil, some (.new ("internal error: gen publickey file: decode public key: " ++ e.text)))
  | (pub1, none) =>
    (bytesOfString (_untrustedComment ++ _pubUT ++ _space ++ addUntrusted ++ _linefeed ++
      pub1.Base64 ++ _linefeed), none)

/-- Source `PrivateKey.GetPubKeyFile`. -/
def PrivateKey.GetPubKeyFile (pk : PrivateKey) (addUntrusted : String) : Slice × Option Error :=
  if pk.Raw.RawKey.sliceAll.len ≠ PrivateKeySize then
    (.nil, some (.new "gen publickey file: no private key"))
  else pk.GetPublicKey.GetPubKeyFile addUntrusted

/-- The contract of the primitive that the specification assumes: an expanded key and a
signature have 64 bytes, and a signature made with the key expanded from a 32-byte seed
verifies under the last 32 bytes of that key. -/
def Ed25519.Contract (ed : Ed25519) : Prop :=
  (∀ seed : List Byte, seed.length = 32 → (ed.NewKeyFromSeed seed).length = 64) ∧
  (∀ key msg : List Byte, key.length = 64 → (ed.Sign key msg).length = 64) ∧
  (∀ seed msg : List Byte, seed.length = 32 →
    ed.Verify ((ed.NewKeyFromSeed seed).drop 32) msg
      (ed.Sign (ed.NewKeyFromSeed seed) msg) = true)

/-! ## Concrete inputs -/

/-- A stand-in for the primitive, to run the code on concrete inputs: the expanded key is
the seed followed by the reversed seed (its public half), and a signature is the public
half followed by the first 32 bytes of the zero-padded message. -/
def modelEd : Ed25519 where
  NewKeyFromSeed seed := seed ++ seed.reverse
  Sign key msg := key.drop 32 ++ (msg ++ List.replicate 32 0).take 32
  Verify pub msg sig := sig == pub ++ (msg ++ List.replicate 32 0).take 32

/-- The seed token of the scenario: 32 zero bytes, then the fingerprint `1, ..., 8`. -/
def seedToken0 : ByteArr 40 := ⟨List.replicate 32 0 ++ [1, 2, 3, 4, 5, 6, 7, 8], by decide⟩

/-- The private key `GeneratePKFromSeed` gives for `seedToken0` under `modelEd`. -/
def privateKey0 : PrivateKey :=
  ⟨"", ⟨_algoEd25519, ⟨[1, 2, 3, 4, 5, 6, 7, 8], rfl⟩, ⟨List.replicate 64 0, rfl⟩⟩⟩

/-- The key `privateKey0` under another fingerprint: same payload, fingerprint zero. -/
def privateKey1 : PrivateKey :=
  ⟨"", ⟨_algoEd25519, ByteArr.zero 8, ⟨List.replicate 64 0, rfl⟩⟩⟩

/-- The zero value `PrivateKey{}`: no tag, no fingerprint, payload never populated. -/
def privateKeyZero : PrivateKey :=
  ⟨"", ⟨ByteArr.zero 2, ByteArr.zero 8, ByteArr.zero 64⟩⟩

/-- The message `Message{Raw: []byte("hello")}`, every other field at its zero value. -/
def message1 : Message :=
  ⟨"", bytesOfString "hello", "",
    ⟨"", ⟨ByteArr.zero 2, ByteArr.zero 8, ByteArr.zero 64⟩⟩,
    ⟨"", ⟨ByteArr.zero 2, ByteArr.zero 8, ByteArr.zero 32⟩⟩⟩

/-- A message holding the raw bytes of `hello`. -/
def message0 : Message :=
  ⟨"", bytesOfString "hello", "a comment", NewSignature, NewPublicKey⟩

/-! ## The base64 codec: decoding undoes encoding -/



theorem decodeMap_encodeChar : ∀ v, v < 64 → decodeMap (encodeChar v) = some v := by
  decide

theorem decodeLoop_valid (c : Char) (out : Nat) (rest : List Char) (si : Nat) (dbuf : List Nat)
    (dst : List Byte) (h : decodeMap c = some out) :
    decodeLoop (c :: rest) si dbuf dst =
      if dbuf.length + 1 = 4 then decodeLoop rest (si + 1) [] (dst ++ quantumBytes (dbuf ++ [out]))
      else decodeLoop rest (si + 1) (dbuf ++ [out]) dst := by
  simp only [decodeLoop, h]

theorem decodeLoop_quad (c0 c1 c2 c3 : Char) (s0 s1 s2 s3 : Nat) (rest : List Char) (si : Nat)
    (dst : List Byte) (h0 : decodeMap c0 = some s0) (h1 : decodeMap c1 = some s1)
    (h2 : decodeMap c2 = some s2) (h3 : decodeMap c3 = some s3) :
    decodeLoop (c0 :: c1 :: c2 :: c3 :: rest) si [] dst =
      decodeLoop rest (si + 4) [] (dst ++ quantumBytes [s0, s1, s2, s3]) := by
  rw [decodeLoop_valid c0 s0 _ _ _ _ h0]
  simp only [List.length_nil, List.nil_append, Nat.zero_add, Nat.reduceEqDiff, if_false]
  rw [decodeLoop_valid c1 s1 _ _ _ _ h1]
  simp only [List.length_singleton, List.singleton_append, Nat.reduceAdd, Nat.reduceEqDiff,
    if_false]
  rw [decodeLoop_valid c2 s2 _ _ _ _ h2]
  simp only [List.length_cons, List.length_nil, List.cons_append, List.nil_append,
    Nat.reduceAdd, Nat.reduceEqDiff, if_false]
  rw [decodeLoop_valid c3 s3 _ _ _ _ h3]
  simp only [List.length_cons, List.length_nil, List.cons_append, List.nil_append,
    Nat.reduceAdd, if_true]

theorem quantumBytes_full (a b c : Byte) :
    quantumBytes [(a.val * 65536 + b.val * 256 + c.val) / 262144 % 64,
      (a.val * 65536 + b.val * 256 + c.val) / 4096 % 64,
      (a.val * 65536 + b.val * 256 + c.val) / 64 % 64,
      (a.val * 65536 + b.val * 256 + c.val) % 64] = [a, b, c] := by
  have ha := a.isLt
  have hb := b.isLt
  have hc := c.isLt
  simp only [quantumBytes, List.getD_cons_zero, List.getD_cons_succ, byteOf]
  refine List.cons_eq_cons.mpr ⟨Fin.ext ?_, List.cons_eq_cons.mpr ⟨Fin.ext ?_,
    List.cons_eq_cons.mpr ⟨Fin.ext ?_, rfl⟩⟩⟩ <;>
  · simp only []
    omega

theorem decodeLoop_pad2 (s0 s1 : Nat) (si : Nat) (dst : List Byte) :
    decodeLoop [padChar, padChar] si [s0, s1] dst = (dst ++ (quantumBytes [s0, s1]).take 1, none) := by
  have hp : decodeMap padChar = none := by decide
  have hn : isNewline padChar = false := by decide
  simp [decodeLoop, hp, hn, skipNewlines]

theorem decodeLoop_pad1 (s0 s1 s2 : Nat) (si : Nat) (dst : List Byte) :
    decodeLoop [padChar] si [s0, s1, s2] dst = (dst ++ (quantumBytes [s0, s1, s2]).take 2, none) := by
  have hp : decodeMap padChar = none := by decide
  have hn : isNewline padChar = false := by decide
  simp [decodeLoop, hp, hn, skipNewlines]

theorem quantumBytes_one (a : Byte) :
    (quantumBytes [a.val * 65536 / 262144 % 64, a.val * 65536 / 4096 % 64]).take 1 = [a] := by
  have ha := a.isLt
  simp only [quantumBytes, List.getD_cons_zero, List.getD_cons_succ, List.getD_nil, byteOf,
    List.take_succ_cons, List.take_zero]
  refine List.cons_eq_cons.mpr ⟨Fin.ext ?_, rfl⟩
  simp only []
  omega

theorem quantumBytes_two (a b : Byte) :
    (quantumBytes [(a.val * 65536 + b.val * 256) / 262144 % 64,
      (a.val * 65536 + b.val * 256) / 4096 % 64,
      (a.val * 65536 + b.val * 256) / 64 % 64]).take 2 = [a, b] := by
  have ha := a.isLt
  have hb := b.isLt
  simp only [quantumBytes, List.getD_cons_zero, List.getD_cons_succ, List.getD_nil, byteOf,
    List.take_succ_cons, List.take_zero]
  refine List.cons_eq_cons.mpr ⟨Fin.ext ?_, List.cons_eq_cons.mpr ⟨Fin.ext ?_, rfl⟩⟩ <;>
  · simp only []
    omega

theorem decodeLoop_encodeChars (bs : List Byte) :
    ∀ (si : Nat) (dst : List Byte), decodeLoop (encodeChars bs) si [] dst = (dst ++ bs, none) := by
  induction bs using encodeChars.induct with
  | case1 => intro si dst; simp [encodeChars, decodeLoop]
  | case2 a =>
    intro si dst
    have h64 : ∀ n, n % 64 < 64 := fun n => Nat.mod_lt n (by decide)
    simp only [encodeChars]
    rw [decodeLoop_valid _ _ _ _ _ _ (decodeMap_encodeChar _ (h64 _))]
    simp only [List.length_nil, List.nil_append, Nat.zero_add, Nat.reduceEqDiff, if_false]
    rw [decodeLoop_valid _ _ _ _ _ _ (decodeMap_encodeChar _ (h64 _))]
    simp only [List.length_singleton, List.singleton_append, Nat.reduceAdd, Nat.reduceEqDiff,
      if_false]
    rw [decodeLoop_pad2, quantumBytes_one]
  | case3 a b =>
    intro si dst
    have h64 : ∀ n, n % 64 < 64 := fun n => Nat.mod_lt n (by decide)
    simp only [encodeChars]
    rw [decodeLoop_valid _ _ _ _ _ _ (decodeMap_encodeChar _ (h64 _))]
    simp only [List.length_nil, List.nil_append, Nat.zero_add, Nat.reduceEqDiff, if_false]
    rw [decodeLoop_valid _ _ _ _ _ _ (decodeMap_encodeChar _ (h64 _))]
    simp only [List.length_singleton, List.singleton_append, Nat.reduceAdd, Nat.reduceEqDiff,
      if_false]
    rw [decodeLoop_valid _ _ _ _ _ _ (decodeMap_encodeChar _ (h64 _))]
    simp only [List.length_cons, List.length_nil, List.cons_append, List.nil_append,
      Nat.reduceAdd, Nat.reduceEqDiff, if_false]
    rw [decodeLoop_pad1, quantumBytes_two]
  | case4 a b c rest ih =>
    intro si dst
    have h64 : ∀ n, n % 64 < 64 := fun n => Nat.mod_lt n (by decide)
    simp only [encodeChars]
    rw [decodeLoop_quad _ _ _ _ _ _ _ _ _ _ _ (decodeMap_encodeChar _ (h64 _))
      (decodeMap_encodeChar _ (h64 _)) (decodeMap_encodeChar _ (h64 _))
      (decodeMap_encodeChar _ (h64 _)), quantumBytes_full, ih]
    simp

theorem DecodeString_EncodeToString (bs : List Byte) :
    DecodeString (EncodeToString bs) = (bs, none) := by
  simp [DecodeString, EncodeToString, decodeLoop_encodeChars]

theorem EncodeToString_ne_empty (bs : List Byte) (h : bs ≠ []) : EncodeToString bs ≠ "" := by
  intro he
  have h2 : (EncodeToString bs).toList = [] := by rw [he]; rfl
  simp only [EncodeToString] at h2
  cases bs with
  | nil => exact h rfl
  | cons a t =>
    cases t with
    | nil => simp [encodeChars] at h2
    | cons b t =>
      cases t with
      | nil => simp [encodeChars] at h2
      | cons c t => simp [encodeChars] at h2

/-! ## Fixed-size copies -/

theorem copyFrom_zero_val {n : Nat} (l : List Byte) (h : l.length = n) :
    ((ByteArr.zero n).copyFrom ((Slice.of l).sliceFrom 0)).val = l := by
  simp [ByteArr.copyFrom, Slice.sliceFrom, Slice.bytes, ByteArr.zero, h]

theorem sliceTo2_of (l : List Byte) (h : l.length = 2) : sliceTo2 (.of l) = (⟨l, h⟩, none) := by
  have hv := copyFrom_zero_val l h
  simp only [sliceTo2, Slice.len, Slice.bytes, h, ne_eq, not_true_eq_false, if_false]
  exact Prod.ext (Subtype.ext hv) rfl

theorem sliceTo8_of (l : List Byte) (h : l.length = 8) : sliceTo8 (.of l) = (⟨l, h⟩, none) := by
  have hv := copyFrom_zero_val l h
  simp only [sliceTo8, Slice.len, Slice.bytes, h, ne_eq, not_true_eq_false, if_false]
  exact Prod.ext (Subtype.ext hv) rfl

theorem sliceTo32_of (l : List Byte) (h : l.length = 32) : sliceTo32 (.of l) = (⟨l, h⟩, none) := by
  have hv := copyFrom_zero_val l h
  simp only [sliceTo32, Slice.len, Slice.bytes, h, ne_eq, not_true_eq_false, if_false]
  exact Prod.ext (Subtype.ext hv) rfl

theorem sliceTo64_of (l : List Byte) (h : l.length = 64) : sliceTo64 (.of l) = (⟨l, h⟩, none) := by
  have hv := copyFrom_zero_val l h
  simp only [sliceTo64, Slice.len, Slice.bytes, h, ne_eq, not_true_eq_false, if_false]
  exact Prod.ext (Subtype.ext hv) rfl

theorem sliceTo64_error (l : List Byte) (h : l.length ≠ 64) : (sliceTo64 (.of l)).2 ≠ none := by
  simp [sliceTo64, Slice.len, Slice.bytes, h]

/-! ## The record codec -/

theorem dec_of_ne_empty (b64 : String) (h : b64 ≠ "") :
    dec b64 = (.of (DecodeString b64).1, (DecodeString b64).2) := by
  simp [dec, _empty, h]

theorem dec_empty : dec "" = (.nil, some (.new "base64 decode: no base64 message")) := by
  simp [dec, _empty]

/-- What `PublicKey.Decode` does on a text that decodes to 42 bytes. -/
theorem PublicKey_Decode_of_bytes (pub : PublicKey) (s : List Byte) (h0 : pub.Base64 ≠ "")
    (hd : DecodeString pub.Base64 = (s, none)) (hl : s.length = 42) :
    pub.Decode = (⟨pub.Base64, ⟨⟨s.take 2, by simp [hl]⟩, ⟨(s.take 10).drop 2, by simp [hl]⟩,
      ⟨s.drop 10, by simp [hl]⟩⟩⟩, none) := by
  have h2 : (s.take 2).length = 2 := by simp [hl]
  have h8 : ((s.take 10).drop 2).length = 8 := by simp [hl]
  have h32 : (s.drop 10).length = 32 := by simp [hl]
  simp only [PublicKey.Decode, dec_of_ne_empty _ h0, hd, Slice.len, Slice.bytes, hl,
    KeyAlgoSize, FingerPrintSize, PublicKeySize, Slice.slice, Slice.sliceFrom, List.drop_zero,
    Nat.reduceAdd, ne_eq, not_true_eq_false, if_false, sliceTo2_of _ h2, sliceTo8_of _ h8,
    sliceTo32_of _ h32]

/-- What `Signature.Decode` does on a text that decodes to 74 bytes. -/
theorem Signature_Decode_of_bytes (sig : Signature) (s : List Byte) (h0 : sig.Base64 ≠ "")
    (hd : DecodeString sig.Base64 = (s, none)) (hl : s.length = 74) :
    sig.Decode = (⟨sig.Base64, ⟨⟨s.take 2, by simp [hl]⟩, ⟨(s.take 10).drop 2, by simp [hl]⟩,
      ⟨s.drop 10, by simp [hl]⟩⟩⟩, none) := by
  have h2 : (s.take 2).length = 2 := by simp [hl]
  have h8 : ((s.take 10).drop 2).length = 8 := by simp [hl]
  have h64 : (s.drop 10).length = 64 := by simp [hl]
  simp only [Signature.Decode, dec_of_ne_empty _ h0, hd, Slice.len, Slice.bytes, hl,
    KeyAlgoSize, FingerPrintSize, SignatureSize, Slice.slice, Slice.sliceFrom, List.drop_zero,
    Nat.reduceAdd, ne_eq, not_true_eq_false, if_false, sliceTo2_of _ h2, sliceTo8_of _ h8,
    sliceTo64_of _ h64]

theorem PublicKey_Encode_eq (pub : PublicKey) :
    pub.Encode = (⟨EncodeToString (pub.Raw.PKAlgo.val ++ pub.Raw.Fingerprint.val ++
      pub.Raw.RawKey.val), pub.Raw⟩, none) := by
  simp [PublicKey.Encode, enc, RawPublicKey.binaryWrite, Slice.isNil, Slice.bytes]

theorem Signature_Encode_eq (sig : Signature) :
    sig.Encode = (⟨EncodeToString (sig.Raw.PKAlgo.val ++ sig.Raw.Fingerprint.val ++
      sig.Raw.RawSig.val), sig.Raw⟩, none) := by
  simp [Signature.Encode, enc, RawSignature.binaryWrite, Slice.isNil, Slice.bytes]

theorem RawPublicKey_record_length (r : RawPublicKey) :
    (r.PKAlgo.val ++ r.Fingerprint.val ++ r.RawKey.val).length = 42 := by
  simp [r.PKAlgo.property, r.Fingerprint.property, r.RawKey.property]

theorem RawSignature_record_length (r : RawSignature) :
    (r.PKAlgo.val ++ r.Fingerprint.val ++ r.RawSig.val).length = 74 := by
  simp [r.PKAlgo.property, r.Fingerprint.property, r.RawSig.property]

/-! ## Verify and Sign -/

theorem ByteArr.sliceAll_isNil {n : Nat} (a : ByteArr n) : a.sliceAll.isNil = false := rfl

theorem ByteArr.sliceAll_bytes {n : Nat} (a : ByteArr n) : a.sliceAll.bytes = a.val := rfl

/-- With the raw message present `Verify` is its three checks and leaves the message alone. -/
theorem Message.Verify_present (ed : Ed25519) (msg : Message) (pub : Signify.PublicKey)
    (h : msg.Raw.isNil = false) :
    Message.Verify ed msg pub = (msg, Message.verifyChecks ed msg pub) := by
  simp [Message.Verify, ByteArr.sliceAll_isNil, h]

/-- The checks answer `true` exactly when they give no error. -/
theorem Message.verifyChecks_true_iff (ed : Ed25519) (msg : Message) (pub : Signify.PublicKey) :
    (Message.verifyChecks ed msg pub).1 = true ↔ (Message.verifyChecks ed msg pub).2 = none := by
  unfold Message.verifyChecks
  split
  · simp
  · split
    · split <;> simp
    · simp

/-- The checks read the raw message, the raw signature and the fingerprint of the message's
own public key, and nothing else of the message. -/
theorem Message.verifyChecks_congr (ed : Ed25519) (m1 m2 : Message) (pub : Signify.PublicKey)
    (hr : m1.Raw = m2.Raw) (hs : m1.Signature.Raw = m2.Signature.Raw)
    (hp : m1.PublicKey.Raw.Fingerprint = m2.PublicKey.Raw.Fingerprint) :
    Message.verifyChecks ed m1 pub = Message.verifyChecks ed m2 pub := by
  simp only [Message.verifyChecks, hr, hs, hp]

/-- The message a successful `Sign` leaves behind, when the raw bytes are present. -/
theorem Message.signSteps_ok (ed : Ed25519) (msg : Message) (pk : PrivateKey)
    (h : msg.Raw.isNil = false) (hs : (Message.signSteps ed msg pk).2 = none) :
    ∃ hlen : (ed.Sign pk.Raw.RawKey.val msg.Raw.bytes).length = 64,
      (Message.signSteps ed msg pk).1 =
        ⟨msg.Base64, msg.Raw, msg.UntrustedComment,
          ⟨EncodeToString (_algoEd25519.val ++ pk.Raw.Fingerprint.val ++
              ed.Sign pk.Raw.RawKey.val msg.Raw.bytes),
            ⟨_algoEd25519, pk.Raw.Fingerprint, ⟨ed.Sign pk.Raw.RawKey.val msg.Raw.bytes, hlen⟩⟩⟩,
          pk.GetPublicKey⟩ ∧
      pk.Raw.PKAlgo = _algoEd25519 ∧
      ed.Verify pk.GetPublicKey.Raw.RawKey.val msg.Raw.bytes
        (ed.Sign pk.Raw.RawKey.val msg.Raw.bytes) = true := by
  by_cases halgo : pk.Raw.PKAlgo = _algoEd25519
  · by_cases hlen : (ed.Sign pk.Raw.RawKey.val msg.Raw.bytes).length = 64
    · refine ⟨hlen, ?_⟩
      simp only [Message.signSteps, halgo, if_true, ByteArr.sliceAll_bytes,
        sliceTo64_of _ hlen, Message.Verify_present, h, Signature_Encode_eq] at hs ⊢
      generalize hvc : Message.verifyChecks ed _ pk.GetPublicKey = vc at hs ⊢
      obtain ⟨b, e⟩ := vc
      cases b with
      | false => simp at hs
      | true =>
        refine ⟨rfl, trivial, ?_⟩
        have hv := congrArg Prod.fst hvc
        simp only [Message.verifyChecks] at hv
        split at hv
        · simp at hv
        · split at hv
          · split at hv
            · simp at hv
            · rename_i hne
              simpa [ByteArr.sliceAll_bytes] using hne
          · simp at hv
    · have he := sliceTo64_error _ hlen
      simp only [Message.signSteps, halgo, if_true, ByteArr.sliceAll_bytes] at hs
      revert hs
      generalize sliceTo64 (Slice.of (ed.Sign pk.Raw.RawKey.val msg.Raw.bytes)) = r at he ⊢
      obtain ⟨a, e⟩ := r
      cases e with
      | none => exact absurd rfl he
      | some e => simp
  · simp [Message.signSteps, halgo] at hs

/-- The message `Sign` leaves behind when the algorithm tag is right, the primitive gives
64 bytes and the self-check accepts them. -/
theorem Message.signSteps_of_verified (ed : Ed25519) (msg : Message) (pk : PrivateKey)
    (h : msg.Raw.isNil = false) (halgo : pk.Raw.PKAlgo = _algoEd25519)
    (hlen : (ed.Sign pk.Raw.RawKey.val msg.Raw.bytes).length = 64)
    (hver : ed.Verify pk.GetPublicKey.Raw.RawKey.val msg.Raw.bytes
      (ed.Sign pk.Raw.RawKey.val msg.Raw.bytes) = true) :
    Message.signSteps ed msg pk =
      (⟨msg.Base64, msg.Raw, msg.UntrustedComment,
          ⟨EncodeToString (_algoEd25519.val ++ pk.Raw.Fingerprint.val ++
              ed.Sign pk.Raw.RawKey.val msg.Raw.bytes),
            ⟨_algoEd25519, pk.Raw.Fingerprint, ⟨ed.Sign pk.Raw.RawKey.val msg.Raw.bytes, hlen⟩⟩⟩,
          pk.GetPublicKey⟩, none) := by
  have hpub : pk.GetPublicKey.Raw.PKAlgo = _algoEd25519 := rfl
  have hfp : pk.GetPublicKey.Raw.Fingerprint = pk.Raw.Fingerprint := rfl
  simp only [Message.signSteps, halgo, if_true, ByteArr.sliceAll_bytes,
    sliceTo64_of _ hlen, Message.Verify_present, h, Signature_Encode_eq,
    Message.verifyChecks, hpub, hfp, hver, ne_eq, not_true_eq_false, if_false, and_self,
    Bool.not_true, Bool.false_eq_true]

theorem dec_ok_not_nil (b64 : String) (h : (dec b64).2 = none) : (dec b64).1.isNil = false := by
  by_cases h0 : b64 = ""
  · rw [h0, dec_empty] at h
    exact absurd h (by simp)
  · rw [dec_of_ne_empty _ h0]
    rfl

/-- A successful `Sign` ran its signing steps on a message whose raw bytes are present:
the message itself, or the message with its `Base64` decoded into `Raw`. -/
theorem Message.Sign_ok_steps (ed : Ed25519) (msg : Message) (pk : PrivateKey)
    (hs : (Message.Sign ed msg pk).2 = none) :
    ∃ m0 : Message, m0.Raw.isNil = false ∧ Message.Sign ed msg pk = Message.signSteps ed m0 pk := by
  cases hr : msg.Raw.isNil with
  | false =>
    refine ⟨msg, hr, ?_⟩
    simp [Message.Sign, ByteArr.sliceAll_isNil, hr]
  | true =>
    simp only [Message.Sign, ByteArr.sliceAll_isNil, hr, Message.Decode, if_true,
      Bool.false_eq_true, if_false] at hs ⊢
    cases hd : (dec msg.Base64).2 with
    | some e => simp [hd] at hs
    | none =>
      refine ⟨{ msg with Raw := (dec msg.Base64).1 }, dec_ok_not_nil _ hd, ?_⟩
      simp [hd]

theorem Message.Sign_present (ed : Ed25519) (msg : Message) (pk : PrivateKey)
    (h : msg.Raw.isNil = false) : Message.Sign ed msg pk = Message.signSteps ed msg pk := by
  simp [Message.Sign, ByteArr.sliceAll_isNil, h]

theorem PrivateKey.GetPublicKey_RawKey (pk : PrivateKey) :
    pk.GetPublicKey.Raw.RawKey.val = pk.Raw.RawKey.val.drop 32 := by
  have h := pk.Raw.RawKey.property
  simp [PrivateKey.GetPublicKey, NewPublicKey, ByteArr.copyFrom, ByteArr.sliceFrom, Slice.bytes,
    PrivatePublicKeyOffset, PrivateKeySize, PublicKeySize, ByteArr.zero, h]

/-- A message that `Sign` accepted verifies under the public key of the signing key. -/
theorem Message.Sign_ok_verify (ed : Ed25519) (msg : Message) (pk : PrivateKey)
    (hs : (Message.Sign ed msg pk).2 = none) :
    (Message.Verify ed (Message.Sign ed msg pk).1 pk.GetPublicKey).2 = (true, none) := by
  obtain ⟨m0, hm0, hS⟩ := Message.Sign_ok_steps ed msg pk hs
  rw [hS] at hs ⊢
  obtain ⟨hlen, h1, _, hver⟩ := Message.signSteps_ok ed m0 pk hm0 hs
  have hpub : pk.GetPublicKey.Raw.PKAlgo = _algoEd25519 := rfl
  have hfp : pk.GetPublicKey.Raw.Fingerprint = pk.Raw.Fingerprint := rfl
  rw [h1]
  simp only [Message.Verify_present, hm0, Message.verifyChecks, hpub, hfp,
    ByteArr.sliceAll_bytes, hver, ne_eq, not_true_eq_false, if_false, and_self, if_true,
    Bool.not_true, Bool.false_eq_true]

/-- Under the contract of the primitive, `Sign` accepts every message with raw bytes when
the key carries the Ed25519 tag and a payload expanded from a 32-byte seed. -/
theorem Message.Sign_of_contract (ed : Ed25519) (hc : ed.Contract) (msg : Message)
    (pk : PrivateKey) (hraw : msg.Raw.isNil = false) (halgo : pk.Raw.PKAlgo = _algoEd25519)
    (seed : List Byte) (hseed : seed.length = 32)
    (hkey : pk.Raw.RawKey.val = ed.NewKeyFromSeed seed) :
    (Message.Sign ed msg pk).2 = none := by
  have hsig := hc.2.1 pk.Raw.RawKey.val msg.Raw.bytes pk.Raw.RawKey.property
  have hver : ed.Verify pk.GetPublicKey.Raw.RawKey.val msg.Raw.bytes
      (ed.Sign pk.Raw.RawKey.val msg.Raw.bytes) = true := by
    rw [PrivateKey.GetPublicKey_RawKey, hkey]
    exact hc.2.2 seed msg.Raw.bytes hseed
  rw [Message.Sign_present ed msg pk hraw,
    Message.signSteps_of_verified ed msg pk hraw halgo hsig hver]

/-! ## Key derivation -/

theorem modelEd_contract : modelEd.Contract := by
  refine ⟨?_, ?_, ?_⟩
  · intro seed h
    simp [modelEd, h]
  · intro key msg h
    simp only [modelEd, List.length_append, List.length_drop, List.length_take,
      List.length_replicate, h]
    omega
  · intro seed msg _
    simp [modelEd]

/-- Under the contract of the primitive `GeneratePKFromSeed` does not panic, and returns
the Ed25519 tag, the last 8 bytes of the token and the key expanded from its first 32. -/
theorem GeneratePKFromSeed_of_contract (ed : Ed25519) (hc : ed.Contract) (t : ByteArr 40) :
    ∃ (hfp : (t.val.drop 32).length = 8)
      (hlen : (ed.NewKeyFromSeed (t.val.take 32)).length = 64),
      GeneratePKFromSeed ed t =
        .ok ⟨"", ⟨_algoEd25519, ⟨t.val.drop 32, hfp⟩,
          ⟨ed.NewKeyFromSeed (t.val.take 32), hlen⟩⟩⟩ := by
  have ht := t.property
  have hfp : (t.val.drop 32).length = 8 := by simp [ht]
  have hseed : (t.val.take 32).length = 32 := by simp [ht]
  have hlen : (ed.NewKeyFromSeed (t.val.take 32)).length = 64 := hc.1 _ hseed
  refine ⟨hfp, hlen, ?_⟩
  have hS := Message.Sign_of_contract ed hc
    ⟨"", bytesOfString _verifyThisKeyGenMessage, "",
      ⟨"", ⟨ByteArr.zero 2, ByteArr.zero 8, ByteArr.zero 64⟩⟩,
      ⟨"", ⟨ByteArr.zero 2, ByteArr.zero 8, ByteArr.zero 32⟩⟩⟩
    ⟨"", ⟨_algoEd25519, ⟨t.val.drop 32, hfp⟩, ⟨ed.NewKeyFromSeed (t.val.take 32), hlen⟩⟩⟩
    rfl rfl (t.val.take 32) hseed rfl
  simp only [GeneratePKFromSeed, NewPrivateKey, ByteArr.sliceFrom, ByteArr.sliceTo, SeedSize,
    Slice.bytes, sliceTo8_of _ hfp, sliceTo64_of _ hlen]
  rw [hS]

/-! ## The claims -/

/-- C1. Under the contract of the Ed25519 primitive, for every 40-byte seed token `t` and
every message whose raw bytes are present, `GeneratePKFromSeed t` returns a key `pk`,
`msg.Sign(pk)` returns no error, and `Verify(pk.GetPublicKey())` on the signed message
returns `(true, nil)`. -/
theorem C1_sign_verify_derived_key (ed : Ed25519) (hc : ed.Contract) (t : ByteArr 40)
    (msg : Message) (hraw : msg.Raw.isNil = false) :
    ∃ pk : PrivateKey, GeneratePKFromSeed ed t = .ok pk ∧
      (Message.Sign ed msg pk).2 = none ∧
      (Message.Verify ed (Message.Sign ed msg pk).1 pk.GetPublicKey).2 = (true, none) := by
  obtain ⟨hfp, hlen, hgen⟩ := GeneratePKFromSeed_of_contract ed hc t
  have hseed : (t.val.take 32).length = 32 := by simp [t.property]
  have hS := Message.Sign_of_contract ed hc msg
    ⟨"", ⟨_algoEd25519, ⟨t.val.drop 32, hfp⟩, ⟨ed.NewKeyFromSeed (t.val.take 32), hlen⟩⟩⟩
    hraw rfl (t.val.take 32) hseed rfl
  exact ⟨_, hgen, hS, Message.Sign_ok_verify ed msg _ hS⟩

/-- C1 at the seed token `seedToken0` and the message `hello`, with the stand-in primitive. -/
theorem C1_sign_verify_derived_key_witness :
    modelEd.Contract ∧ message0.Raw.isNil = false ∧
    ∃ pk : PrivateKey, GeneratePKFromSeed modelEd seedToken0 = .ok pk ∧
      (Message.Sign modelEd message0 pk).2 = none ∧
      (Message.Verify modelEd (Message.Sign modelEd message0 pk).1 pk.GetPublicKey).2 =
        (true, none) :=
  ⟨modelEd_contract, rfl,
    C1_sign_verify_derived_key modelEd modelEd_contract seedToken0 message0 rfl⟩

/-- C2, as stated, fails: `privateKey0` and `privateKey1` differ in their fingerprints
and share their payload; `hello` is signed with the first, and `Verify` under the public
key of the second does not give the fingerprint-mismatch error, it returns `(true, nil)`. -/
theorem C2_fingerprint_binding_counterexample :
    privateKey0.Raw.Fingerprint ≠ privateKey1.Raw.Fingerprint ∧
    (Message.Sign modelEd message0 privateKey0).2 = none ∧
    (Message.Verify modelEd (Message.Sign modelEd message0 privateKey0).1
      privateKey1.GetPublicKey).2 ≠
        (false, some (.new "fingerprint matching failed: wrong public key for message")) ∧
    (Message.Verify modelEd (Message.Sign modelEd message0 privateKey0).1
      privateKey1.GetPublicKey).2 = (true, none) := by
  decide

/-- C2, amended. After a successful `msg.Sign(A)`, `msg.Verify(B.GetPublicKey())` does not
give the fingerprint-mismatch error, whatever the fingerprints of `A` and `B`: `Verify`
compares the fingerprint of the signature with that of the message's own `PublicKey`,
which `Sign` set to the key of `A`, not with that of its argument. The result is
`(true, nil)` when the primitive accepts the public half of `B`, so whenever `A` and `B`
carry the same key payload, and the verification-failed error otherwise. -/
theorem C2_verify_ignores_fingerprint_of_argument (ed : Ed25519) (msg : Message)
    (A B : PrivateKey) (hs : (Message.Sign ed msg A).2 = none) :
    ((Message.Verify ed (Message.Sign ed msg A).1 B.GetPublicKey).2 =
      if ed.Verify (B.Raw.RawKey.val.drop 32) (Message.Sign ed msg A).1.Raw.bytes
          (Message.Sign ed msg A).1.Signature.Raw.RawSig.val = true then (true, none)
      else (false, some (.new "ed25519 signature verification failed"))) ∧
    (Message.Verify ed (Message.Sign ed msg A).1 B.GetPublicKey).2 ≠
      (false, some (.new "fingerprint matching failed: wrong public key for message")) ∧
    (B.Raw.RawKey = A.Raw.RawKey →
      (Message.Verify ed (Message.Sign ed msg A).1 B.GetPublicKey).2 = (true, none)) := by
  obtain ⟨m0, hm0, hS⟩ := Message.Sign_ok_steps ed msg A hs
  rw [hS] at hs ⊢
  obtain ⟨hlen, h1, _, hver⟩ := Message.signSteps_ok ed m0 A hm0 hs
  have hpub : B.GetPublicKey.Raw.PKAlgo = _algoEd25519 := rfl
  have hfp : A.GetPublicKey.Raw.Fingerprint = A.Raw.Fingerprint := rfl
  rw [PrivateKey.GetPublicKey_RawKey] at hver
  rw [h1]
  simp only [Message.Verify_present, hm0, Message.verifyChecks, hpub, hfp,
    ByteArr.sliceAll_bytes, PrivateKey.GetPublicKey_RawKey, ne_eq, not_true_eq_false,
    if_false, and_self, if_true]
  refine ⟨?_, ?_, ?_⟩
  · cases ed.Verify (B.Raw.RawKey.val.drop 32) m0.Raw.bytes
      (ed.Sign A.Raw.RawKey.val m0.Raw.bytes) <;> simp
  · cases ed.Verify (B.Raw.RawKey.val.drop 32) m0.Raw.bytes
      (ed.Sign A.Raw.RawKey.val m0.Raw.bytes)
    · simp only [Bool.not_false, if_true, Prod.mk.injEq, Option.some.injEq, Error.new.injEq,
        true_and]
      decide
    · simp
  · intro hB
    rw [hB, hver]
    simp

/-- C2, amended, at `hello` signed with `privateKey0` and verified under the public key of
`privateKey1`, which shares the payload and not the fingerprint. -/
theorem C2_verify_ignores_fingerprint_of_argument_witness :
    (Message.Sign modelEd message0 privateKey0).2 = none ∧
    privateKey1.Raw.RawKey = privateKey0.Raw.RawKey ∧
    (Message.Verify modelEd (Message.Sign modelEd message0 privateKey0).1
      privateKey1.GetPublicKey).2 = (true, none) :=
  ⟨by decide, rfl,
    (C2_verify_ignores_fingerprint_of_argument modelEd message0 privateKey0 privateKey1
      (by decide)).2.2 rfl⟩

/-- C3. For every primitive, message and private key: if `msg.Sign(pk)` returns a nil error
then `msg.Verify(pk.GetPublicKey())` on the resulting message returns `(true, nil)`. -/
theorem C3_sign_success_verifies (ed : Ed25519) (msg : Message) (pk : PrivateKey)
    (hs : (Message.Sign ed msg pk).2 = none) :
    (Message.Verify ed (Message.Sign ed msg pk).1 pk.GetPublicKey).2 = (true, none) :=
  Message.Sign_ok_verify ed msg pk hs

/-- C3 at the message `hello` and the key `privateKey0`. -/
theorem C3_sign_success_verifies_witness :
    (Message.Sign modelEd message0 privateKey0).2 = none ∧
    (Message.Verify modelEd (Message.Sign modelEd message0 privateKey0).1
      privateKey0.GetPublicKey).2 = (true, none) :=
  ⟨by decide, C3_sign_success_verifies modelEd message0 privateKey0 (by decide)⟩

/-- With the raw message absent, `Verify` decodes `Base64` first: an error of the decoding
is its result, otherwise the checks run on the decoded bytes. -/
theorem Message.Verify_absent (ed : Ed25519) (msg : Message) (pub : Signify.PublicKey)
    (h : msg.Raw.isNil = true) :
    Message.Verify ed msg pub =
      match (dec msg.Base64).2 with
      | some e =>
        ({ msg with Raw := (dec msg.Base64).1 }, false,
          some (.new ("verify failed: no raw message and " ++ e.text)))
      | none =>
        ({ msg with Raw := (dec msg.Base64).1 },
          Message.verifyChecks ed { msg with Raw := (dec msg.Base64).1 } pub) := by
  simp only [Message.Verify, ByteArr.sliceAll_isNil, h, Message.Decode, Bool.false_eq_true,
    if_false, if_true]
  cases (dec msg.Base64).2 <;> rfl

/-- C4. The result of `Verify` is a fixed decision table. With the raw bytes present, or
absent and decodable from `Base64` (`raw` being the bytes then verified): a fingerprint of
the signature other than that of the message's `PublicKey` gives the fingerprint-mismatch
error; otherwise a tag of the signature or of `pub` other than Ed25519 gives
`unknown signature Algo`; otherwise the result is `(true, nil)` when the primitive accepts
`(pub.Raw.RawKey, raw, RawSig)` and the verification-failed error when it rejects. With the
raw bytes absent and `Base64` not decodable the result is `false` with an error. In every
case the boolean is `true` exactly when the error is nil. -/
theorem C4_verify_decision_table (ed : Ed25519) (msg : Message) (pub : PublicKey) :
    (msg.Raw.isNil = false ∨ (dec msg.Base64).2 = none →
      (msg.Signature.Raw.Fingerprint ≠ msg.PublicKey.Raw.Fingerprint →
        (Message.Verify ed msg pub).2 =
          (false, some (.new "fingerprint matching failed: wrong public key for message"))) ∧
      (msg.Signature.Raw.Fingerprint = msg.PublicKey.Raw.Fingerprint →
        msg.Signature.Raw.PKAlgo ≠ _algoEd25519 ∨ pub.Raw.PKAlgo ≠ _algoEd25519 →
        (Message.Verify ed msg pub).2 = (false, some (.new "unknown signature Algo"))) ∧
      (msg.Signature.Raw.Fingerprint = msg.PublicKey.Raw.Fingerprint →
        msg.Signature.Raw.PKAlgo = _algoEd25519 → pub.Raw.PKAlgo = _algoEd25519 →
        ed.Verify pub.Raw.RawKey.val
          (if msg.Raw.isNil then (dec msg.Base64).1 else msg.Raw).bytes
          msg.Signature.Raw.RawSig.val = true →
        (Message.Verify ed msg pub).2 = (true, none)) ∧
      (msg.Signature.Raw.Fingerprint = msg.PublicKey.Raw.Fingerprint →
        msg.Signature.Raw.PKAlgo = _algoEd25519 → pub.Raw.PKAlgo = _algoEd25519 →
        ed.Verify pub.Raw.RawKey.val
          (if msg.Raw.isNil then (dec msg.Base64).1 else msg.Raw).bytes
          msg.Signature.Raw.RawSig.val = false →
        (Message.Verify ed msg pub).2 =
          (false, some (.new "ed25519 signature verification failed")))) ∧
    (msg.Raw.isNil = true → (dec msg.Base64).2 ≠ none →
      (Message.Verify ed msg pub).2.1 = false ∧ (Message.Verify ed msg pub).2.2 ≠ none) ∧
    ((Message.Verify ed msg pub).2.1 = true ↔ (Message.Verify ed msg pub).2.2 = none) := by
  cases hr : msg.Raw.isNil with
  | false =>
    rw [Message.Verify_present ed msg pub hr]
    refine ⟨fun _ => ⟨?_, ?_, ?_, ?_⟩, fun h => absurd h (by simp),
      Message.verifyChecks_true_iff ed msg pub⟩
    · intro hfp
      simp [Message.verifyChecks, hfp]
    · intro hfp halgo
      have hn : ¬(msg.Signature.Raw.PKAlgo = _algoEd25519 ∧ pub.Raw.PKAlgo = _algoEd25519) :=
        fun h => halgo.elim (fun h1 => h1 h.1) (fun h2 => h2 h.2)
      simp [Message.verifyChecks, hfp, hn]
    · intro hfp h1 h2 hv
      simp only [Bool.false_eq_true, if_false] at hv
      simp [Message.verifyChecks, hfp, h1, h2, ByteArr.sliceAll_bytes, hv]
    · intro hfp h1 h2 hv
      simp only [Bool.false_eq_true, if_false] at hv
      simp [Message.verifyChecks, hfp, h1, h2, ByteArr.sliceAll_bytes, hv]
  | true =>
    rw [Message.Verify_absent ed msg pub hr]
    cases hd : (dec msg.Base64).2 with
    | some e =>
      refine ⟨fun h => ?_, fun _ _ => ⟨rfl, by simp⟩, by simp⟩
      rcases h with h | h
      · exact absurd h (by simp)
      · exact absurd h (by simp)
    | none =>
      refine ⟨fun _ => ⟨?_, ?_, ?_, ?_⟩, fun _ h => absurd rfl h,
        Message.verifyChecks_true_iff ed _ pub⟩
      · intro hfp
        simp [Message.verifyChecks, hfp]
      · intro hfp halgo
        have hn : ¬(msg.Signature.Raw.PKAlgo = _algoEd25519 ∧ pub.Raw.PKAlgo = _algoEd25519) :=
          fun h => halgo.elim (fun h1 => h1 h.1) (fun h2 => h2 h.2)
        simp [Message.verifyChecks, hfp, hn]
      · intro hfp h1 h2 hv
        simp only [if_true] at hv
        simp [Message.verifyChecks, hfp, h1, h2, ByteArr.sliceAll_bytes, hv]
      · intro hfp h1 h2 hv
        simp only [if_true] at hv
        simp [Message.verifyChecks, hfp, h1, h2, ByteArr.sliceAll_bytes, hv]

/-- C4 at three rows of the table: the signed `hello` under the signer's public key, the
same message holding only its base64 text, and the unsigned `hello`. -/
theorem C4_verify_decision_table_witness :
    (Message.Verify modelEd (Message.Sign modelEd message0 privateKey0).1
      privateKey0.GetPublicKey).2 = (true, none) ∧
    (Message.Verify modelEd
      { (Message.Sign modelEd message0 privateKey0).1 with Raw := .nil, Base64 := "aGVsbG8=" }
      privateKey0.GetPublicKey).2 = (true, none) ∧
    (Message.Verify modelEd message0 privateKey0.GetPublicKey).2 =
      (false, some (.new "ed25519 signature verification failed")) :=
  ⟨((C4_verify_decision_table modelEd (Message.Sign modelEd message0 privateKey0).1
      privateKey0.GetPublicKey).1 (Or.inl (by decide))).2.2.1
      (by decide) (by decide) (by decide) (by decide),
    ((C4_verify_decision_table modelEd
      { (Message.Sign modelEd message0 privateKey0).1 with Raw := .nil, Base64 := "aGVsbG8=" }
      privateKey0.GetPublicKey).1 (Or.inr (by decide))).2.2.1
      (by decide) (by decide) (by decide) (by decide),
    ((C4_verify_decision_table modelEd message0 privateKey0.GetPublicKey).1
      (Or.inl (by decide))).2.2.2 (by decide) (by decide) (by decide) (by decide)⟩

/-- C5. After a successful `Sign` on a message with raw bytes: `PublicKey` is
`pk.GetPublicKey()`, the signature carries the Ed25519 tag, the fingerprint of `pk` and the
primitive's signature of `msg.Raw` under `pk.Raw.RawKey`, `Signature.Base64` is the base64
text of the 74-byte record of `Signature.Raw`, and `Raw` and `UntrustedComment` are
unchanged. -/
theorem C5_sign_postcondition (ed : Ed25519) (msg : Message) (pk : PrivateKey)
    (hraw : msg.Raw.isNil = false) (hs : (Message.Sign ed msg pk).2 = none) :
    (Message.Sign ed msg pk).1.PublicKey = pk.GetPublicKey ∧
    (Message.Sign ed msg pk).1.Signature.Raw.PKAlgo = _algoEd25519 ∧
    (Message.Sign ed msg pk).1.Signature.Raw.Fingerprint = pk.Raw.Fingerprint ∧
    (Message.Sign ed msg pk).1.Signature.Raw.RawSig.val =
      ed.Sign pk.Raw.RawKey.val msg.Raw.bytes ∧
    (Message.Sign ed msg pk).1.Signature.Base64 =
      EncodeToString ((Message.Sign ed msg pk).1.Signature.Raw.PKAlgo.val ++
        (Message.Sign ed msg pk).1.Signature.Raw.Fingerprint.val ++
        (Message.Sign ed msg pk).1.Signature.Raw.RawSig.val) ∧
    ((Message.Sign ed msg pk).1.Signature.Raw.PKAlgo.val ++
        (Message.Sign ed msg pk).1.Signature.Raw.Fingerprint.val ++
        (Message.Sign ed msg pk).1.Signature.Raw.RawSig.val).length = 74 ∧
    (Message.Sign ed msg pk).1.Raw = msg.Raw ∧
    (Message.Sign ed msg pk).1.UntrustedComment = msg.UntrustedComment := by
  rw [Message.Sign_present ed msg pk hraw] at hs ⊢
  obtain ⟨hlen, h1, _, _⟩ := Message.signSteps_ok ed msg pk hraw hs
  rw [h1]
  exact ⟨rfl, rfl, rfl, rfl, rfl, RawSignature_record_length _, rfl, rfl⟩

/-- C5 at the message `hello` and the key `privateKey0`. -/
theorem C5_sign_postcondition_witness :
    message0.Raw.isNil = false ∧ (Message.Sign modelEd message0 privateKey0).2 = none ∧
    (Message.Sign modelEd message0 privateKey0).1.PublicKey = privateKey0.GetPublicKey ∧
    (Message.Sign modelEd message0 privateKey0).1.Signature.Raw.Fingerprint =
      privateKey0.Raw.Fingerprint ∧
    (Message.Sign modelEd message0 privateKey0).1.Raw = message0.Raw :=
  have h := C5_sign_postcondition modelEd message0 privateKey0 rfl (by decide)
  ⟨rfl, by decide, h.1, h.2.2.1, h.2.2.2.2.2.2.1⟩

theorem record_split (a f k : List Byte) (ha : a.length = 2) (hf : f.length = 8) :
    (a ++ f ++ k).take 2 = a ∧ ((a ++ f ++ k).take 10).drop 2 = f ∧ (a ++ f ++ k).drop 10 = k := by
  have haf : (a ++ f).length = 10 := by simp [ha, hf]
  refine ⟨?_, ?_, ?_⟩
  · rw [List.append_assoc]
    exact List.take_left' ha
  · rw [List.take_left' haf]
    exact List.drop_left' ha
  · exact List.drop_left' haf

/-- Decoding the text that `Encode` made of the record `r` succeeds and stores `r`,
whatever record `r'` the receiver held before. -/
theorem PublicKey_Decode_Encode (r r' : RawPublicKey) (b : String) :
    PublicKey.Decode ⟨(PublicKey.Encode ⟨b, r⟩).1.Base64, r'⟩ =
      (⟨(PublicKey.Encode ⟨b, r⟩).1.Base64, r⟩, none) := by
  have hr := RawPublicKey_record_length r
  have hr0 : EncodeToString (r.PKAlgo.val ++ r.Fingerprint.val ++ r.RawKey.val) ≠ "" :=
    EncodeToString_ne_empty _ (fun h => by rw [h] at hr; exact absurd hr (by decide))
  rw [PublicKey_Encode_eq]
  rw [PublicKey_Decode_of_bytes
    ⟨EncodeToString (r.PKAlgo.val ++ r.Fingerprint.val ++ r.RawKey.val), r'⟩ _ hr0
    (DecodeString_EncodeToString _) hr]
  obtain ⟨h1, h2, h3⟩ := record_split r.PKAlgo.val r.Fingerprint.val r.RawKey.val
    r.PKAlgo.property r.Fingerprint.property
  refine Prod.ext ?_ rfl
  simp only [h1, h2, h3]

/-- Decoding the text that `Encode` made of the record `s` succeeds and stores `s`,
whatever record `s'` the receiver held before. -/
theorem Signature_Decode_Encode (s s' : RawSignature) (b : String) :
    Signature.Decode ⟨(Signature.Encode ⟨b, s⟩).1.Base64, s'⟩ =
      (⟨(Signature.Encode ⟨b, s⟩).1.Base64, s⟩, none) := by
  have hs := RawSignature_record_length s
  have hs0 : EncodeToString (s.PKAlgo.val ++ s.Fingerprint.val ++ s.RawSig.val) ≠ "" :=
    EncodeToString_ne_empty _ (fun h => by rw [h] at hs; exact absurd hs (by decide))
  rw [Signature_Encode_eq]
  rw [Signature_Decode_of_bytes
    ⟨EncodeToString (s.PKAlgo.val ++ s.Fingerprint.val ++ s.RawSig.val), s'⟩ _ hs0
    (DecodeString_EncodeToString _) hs]
  obtain ⟨h1, h2, h3⟩ := record_split s.PKAlgo.val s.Fingerprint.val s.RawSig.val
    s.PKAlgo.property s.Fingerprint.property
  refine Prod.ext ?_ rfl
  simp only [h1, h2, h3]

/-- C6. Round trip of the record codec: for every raw public key `r` and every raw
signature `s` (any tag, fingerprint and payload) held next to any `Base64` text, `Encode`
succeeds; `Decode` of the text it made succeeds and stores `r` (resp. `s`) in `Raw`,
whatever record `r'` (resp. `s'`) the decoding value held before, so also on the value
`Encode` left; and a second `Encode` gives the `Base64` text of the first. -/
theorem C6_record_codec_round_trip (r r' : RawPublicKey) (s s' : RawSignature) (b : String) :
    ((PublicKey.Encode ⟨b, r⟩).2 = none ∧
      (PublicKey.Decode ⟨(PublicKey.Encode ⟨b, r⟩).1.Base64, r'⟩).2 = none ∧
      (PublicKey.Decode ⟨(PublicKey.Encode ⟨b, r⟩).1.Base64, r'⟩).1.Raw = r ∧
      (PublicKey.Decode ⟨(PublicKey.Encode ⟨b, r⟩).1.Base64, r'⟩).1.Encode.2 = none ∧
      (PublicKey.Decode ⟨(PublicKey.Encode ⟨b, r⟩).1.Base64, r'⟩).1.Encode.1.Base64 =
        (PublicKey.Encode ⟨b, r⟩).1.Base64 ∧
      (PublicKey.Encode ⟨b, r⟩).1.Decode.2 = none ∧
      (PublicKey.Encode ⟨b, r⟩).1.Decode.1.Raw = r ∧
      (PublicKey.Encode ⟨b, r⟩).1.Decode.1.Encode.2 = none ∧
      (PublicKey.Encode ⟨b, r⟩).1.Decode.1.Encode.1.Base64 =
        (PublicKey.Encode ⟨b, r⟩).1.Base64) ∧
    ((Signature.Encode ⟨b, s⟩).2 = none ∧
      (Signature.Decode ⟨(Signature.Encode ⟨b, s⟩).1.Base64, s'⟩).2 = none ∧
      (Signature.Decode ⟨(Signature.Encode ⟨b, s⟩).1.Base64, s'⟩).1.Raw = s ∧
      (Signature.Decode ⟨(Signature.Encode ⟨b, s⟩).1.Base64, s'⟩).1.Encode.2 = none ∧
      (Signature.Decode ⟨(Signature.Encode ⟨b, s⟩).1.Base64, s'⟩).1.Encode.1.Base64 =
        (Signature.Encode ⟨b, s⟩).1.Base64 ∧
      (Signature.Encode ⟨b, s⟩).1.Decode.2 = none ∧
      (Signature.Encode ⟨b, s⟩).1.Decode.1.Raw = s ∧
      (Signature.Encode ⟨b, s⟩).1.Decode.1.Encode.2 = none ∧
      (Signature.Encode ⟨b, s⟩).1.Decode.1.Encode.1.Base64 =
        (Signature.Encode ⟨b, s⟩).1.Base64) := by
  have hp := PublicKey_Decode_Encode r r' b
  have hs := Signature_Decode_Encode s s' b
  have hp0 : (PublicKey.Encode ⟨b, r⟩).1.Decode =
      (⟨(PublicKey.Encode ⟨b, r⟩).1.Base64, r⟩, none) := by
    have h := PublicKey_Decode_Encode r r b
    rw [PublicKey_Encode_eq] at h ⊢
    exact h
  have hs0 : (Signature.Encode ⟨b, s⟩).1.Decode =
      (⟨(Signature.Encode ⟨b, s⟩).1.Base64, s⟩, none) := by
    have h := Signature_Decode_Encode s s b
    rw [Signature_Encode_eq] at h ⊢
    exact h
  rw [hp, hs, hp0, hs0]
  simp only [PublicKey_Encode_eq, Signature_Encode_eq, and_self]

theorem PublicKey_Decode_ok_iff (pub : PublicKey) :
    pub.Decode.2 = none ↔ pub.Base64 ≠ "" ∧ (DecodeString pub.Base64).2 = none ∧
      (DecodeString pub.Base64).1.length = 42 := by
  constructor
  · intro h
    by_cases h0 : pub.Base64 = ""
    · simp [PublicKey.Decode, h0, dec_empty] at h
    · refine ⟨h0, ?_⟩
      simp only [PublicKey.Decode, dec_of_ne_empty _ h0] at h
      cases hd : (DecodeString pub.Base64).2 with
      | some e => simp [hd] at h
      | none =>
        refine ⟨rfl, ?_⟩
        by_contra hl
        simp [hd, Slice.len, Slice.bytes, KeyAlgoSize, FingerPrintSize, PublicKeySize, hl] at h
  · rintro ⟨h0, hd, hl⟩
    rw [PublicKey_Decode_of_bytes pub _ h0 (Prod.ext rfl hd) hl]

theorem Signature_Decode_ok_iff (sig : Signature) :
    sig.Decode.2 = none ↔ sig.Base64 ≠ "" ∧ (DecodeString sig.Base64).2 = none ∧
      (DecodeString sig.Base64).1.length = 74 := by
  constructor
  · intro h
    by_cases h0 : sig.Base64 = ""
    · simp [Signature.Decode, h0, dec_empty] at h
    · refine ⟨h0, ?_⟩
      simp only [Signature.Decode, dec_of_ne_empty _ h0] at h
      cases hd : (DecodeString sig.Base64).2 with
      | some e => simp [hd] at h
      | none =>
        refine ⟨rfl, ?_⟩
        by_contra hl
        simp [hd, Slice.len, Slice.bytes, KeyAlgoSize, FingerPrintSize, SignatureSize, hl] at h
  · rintro ⟨h0, hd, hl⟩
    rw [Signature_Decode_of_bytes sig _ h0 (Prod.ext rfl hd) hl]

/-- C7. Length enforcement: `PublicKey.Decode` returns nil exactly when the text is not
empty, base64-decodes without error and decodes to exactly 42 bytes; `Signature.Decode`
returns nil exactly when the text is not empty, decodes without error and decodes to exactly
74 bytes. -/
theorem C7_decode_length_enforcement (pub : PublicKey) (sig : Signature) :
    (pub.Decode.2 = none ↔ pub.Base64 ≠ "" ∧ (DecodeString pub.Base64).2 = none ∧
      (DecodeString pub.Base64).1.length = 42) ∧
    (sig.Decode.2 = none ↔ sig.Base64 ≠ "" ∧ (DecodeString sig.Base64).2 = none ∧
      (DecodeString sig.Base64).1.length = 74) :=
  ⟨PublicKey_Decode_ok_iff pub, Signature_Decode_ok_iff sig⟩

/-- C8. Wire layout: after `Encode` the `Base64` of a public key is the base64 text of the
42 bytes `PKAlgo` (2), `Fingerprint` (8), `RawKey` (32) in that order, and that of a
signature the text of the 74 bytes `PKAlgo` (2), `Fingerprint` (8), `RawSig` (64). A
successful `Decode` sets `PKAlgo` to the decoded bytes 0-1, `Fingerprint` to bytes 2-9 and
the payload to bytes 10 to the end. `NewPublicKey`, `NewPrivateKey` and `NewSignature`
carry the tag bytes `E`, `d`. -/
theorem C8_wire_layout (pub : PublicKey) (sig : Signature) :
    (pub.Encode.1.Base64 =
        EncodeToString (pub.Raw.PKAlgo.val ++ pub.Raw.Fingerprint.val ++ pub.Raw.RawKey.val) ∧
      pub.Raw.PKAlgo.val.length = 2 ∧ pub.Raw.Fingerprint.val.length = 8 ∧
      pub.Raw.RawKey.val.length = 32 ∧
      (pub.Raw.PKAlgo.val ++ pub.Raw.Fingerprint.val ++ pub.Raw.RawKey.val).length = 42) ∧
    (sig.Encode.1.Base64 =
        EncodeToString (sig.Raw.PKAlgo.val ++ sig.Raw.Fingerprint.val ++ sig.Raw.RawSig.val) ∧
      sig.Raw.PKAlgo.val.length = 2 ∧ sig.Raw.Fingerprint.val.length = 8 ∧
      sig.Raw.RawSig.val.length = 64 ∧
      (sig.Raw.PKAlgo.val ++ sig.Raw.Fingerprint.val ++ sig.Raw.RawSig.val).length = 74) ∧
    (pub.Decode.2 = none →
      pub.Decode.1.Raw.PKAlgo.val = (DecodeString pub.Base64).1.take 2 ∧
      pub.Decode.1.Raw.Fingerprint.val = ((DecodeString pub.Base64).1.take 10).drop 2 ∧
      pub.Decode.1.Raw.RawKey.val = (DecodeString pub.Base64).1.drop 10) ∧
    (sig.Decode.2 = none →
      sig.Decode.1.Raw.PKAlgo.val = (DecodeString sig.Base64).1.take 2 ∧
      sig.Decode.1.Raw.Fingerprint.val = ((DecodeString sig.Base64).1.take 10).drop 2 ∧
      sig.Decode.1.Raw.RawSig.val = (DecodeString sig.Base64).1.drop 10) ∧
    NewPublicKey.Raw.PKAlgo.val = [byteOf 'E'.toNat, byteOf 'd'.toNat] ∧
    NewPrivateKey.Raw.PKAlgo.val = [byteOf 'E'.toNat, byteOf 'd'.toNat] ∧
    NewSignature.Raw.PKAlgo.val = [byteOf 'E'.toNat, byteOf 'd'.toNat] := by
  refine ⟨⟨?_, pub.Raw.PKAlgo.property, pub.Raw.Fingerprint.property,
      pub.Raw.RawKey.property, RawPublicKey_record_length pub.Raw⟩,
    ⟨?_, sig.Raw.PKAlgo.property, sig.Raw.Fingerprint.property,
      sig.Raw.RawSig.property, RawSignature_record_length sig.Raw⟩, ?_, ?_, rfl, rfl, rfl⟩
  · rw [PublicKey_Encode_eq]
  · rw [Signature_Encode_eq]
  · intro h
    obtain ⟨h0, hd, hl⟩ := (PublicKey_Decode_ok_iff pub).mp h
    rw [PublicKey_Decode_of_bytes pub _ h0 (Prod.ext rfl hd) hl]
    exact ⟨rfl, rfl, rfl⟩
  · intro h
    obtain ⟨h0, hd, hl⟩ := (Signature_Decode_ok_iff sig).mp h
    rw [Signature_Decode_of_bytes sig _ h0 (Prod.ext rfl hd) hl]
    exact ⟨rfl, rfl, rfl⟩

/-- C8 at the encoded public key of `privateKey0` and the encoded signature of `hello`. -/
theorem C8_wire_layout_witness :
    privateKey0.GetPublicKey.Encode.1.Base64 =
      "RWQBAgMEBQYHCAAAAAAAAAAAAAAAAAAAAAAAAAAAAAAAAAAAAAAAAAAA" ∧
    privateKey0.GetPublicKey.Encode.1.Decode.2 = none ∧
    privateKey0.GetPublicKey.Encode.1.Decode.1.Raw.Fingerprint.val = [1, 2, 3, 4, 5, 6, 7, 8] ∧
    (Message.Sign modelEd message0 privateKey0).1.Signature.Decode.2 = none ∧
    (Message.Sign modelEd message0 privateKey0).1.Signature.Decode.1.Raw.PKAlgo.val =
      [69, 100] :=
  have h := C8_wire_layout privateKey0.GetPublicKey.Encode.1
    (Message.Sign modelEd message0 privateKey0).1.Signature
  ⟨by decide, by decide, (h.2.2.1 (by decide)).2.1.trans (by decide), by decide,
    (h.2.2.2.1 (by decide)).1.trans (by decide)⟩

/-- C9. Key derivation: under the contract of the primitive, for every 40-byte seed token
`t`, `GeneratePKFromSeed t` returns without panic a private key with the Ed25519 tag, with
fingerprint bytes 32..39 of `t` and with payload `NewKeyFromSeed` of bytes 0..31 of `t`.
Hence for a second token `t2` the payloads agree when the first 32 bytes agree and the
fingerprints agree when the last 8 bytes agree. -/
theorem C9_key_derivation (ed : Ed25519) (hc : ed.Contract) (t : ByteArr 40) :
    (∃ pk : PrivateKey, GeneratePKFromSeed ed t = .ok pk ∧
      pk.Raw.PKAlgo = _algoEd25519 ∧
      pk.Raw.Fingerprint.val = t.val.drop 32 ∧
      pk.Raw.RawKey.val = ed.NewKeyFromSeed (t.val.take 32)) ∧
    (∀ (t2 : ByteArr 40) (pk pk2 : PrivateKey),
      GeneratePKFromSeed ed t = .ok pk → GeneratePKFromSeed ed t2 = .ok pk2 →
      (t.val.take 32 = t2.val.take 32 → pk.Raw.RawKey = pk2.Raw.RawKey) ∧
      (t.val.drop 32 = t2.val.drop 32 → pk.Raw.Fingerprint = pk2.Raw.Fingerprint) ∧
      (t = t2 → pk = pk2)) := by
  obtain ⟨hfp, hlen, hgen⟩ := GeneratePKFromSeed_of_contract ed hc t
  refine ⟨⟨_, hgen, rfl, rfl, rfl⟩, ?_⟩
  intro t2 pk pk2 h1 h2
  obtain ⟨hfp2, hlen2, hgen2⟩ := GeneratePKFromSeed_of_contract ed hc t2
  rw [hgen] at h1
  rw [hgen2] at h2
  have e1 := Except.ok.inj h1
  have e2 := Except.ok.inj h2
  subst e1
  subst e2
  refine ⟨fun h => Subtype.ext ?_, fun h => Subtype.ext ?_, fun h => ?_⟩
  · simp only [h]
  · simp only [h]
  · subst h
    rfl

/-- C9 at the seed token `seedToken0`, with the stand-in primitive. -/
theorem C9_key_derivation_witness :
    modelEd.Contract ∧
    ∃ pk : PrivateKey, GeneratePKFromSeed modelEd seedToken0 = .ok pk ∧
      pk.Raw.PKAlgo = _algoEd25519 ∧
      pk.Raw.Fingerprint.val = seedToken0.val.drop 32 ∧
      pk.Raw.RawKey.val = modelEd.NewKeyFromSeed (seedToken0.val.take 32) :=
  ⟨modelEd_contract, (C9_key_derivation modelEd modelEd_contract seedToken0).1⟩

/-- C10. Public key projection: `pk.GetPublicKey()` has the fingerprint of `pk`, the bytes
32..63 of its payload, an empty `Base64`, and the Ed25519 tag whatever the tag of `pk`.
For the seed token of 32 zero bytes followed by `1, ..., 8`, under the contract of the
primitive, the public key of the derived key has fingerprint `1, ..., 8` and as payload the
last 32 bytes of the expanded key. -/
theorem C10_public_key_projection (pk : PrivateKey) :
    (pk.GetPublicKey.Raw.Fingerprint = pk.Raw.Fingerprint ∧
      pk.GetPublicKey.Raw.RawKey.val = pk.Raw.RawKey.val.drop 32 ∧
      pk.GetPublicKey.Base64 = "" ∧
      pk.GetPublicKey.Raw.PKAlgo = _algoEd25519) ∧
    (∀ ed : Ed25519, ed.Contract →
      ∃ pk0 : PrivateKey, GeneratePKFromSeed ed seedToken0 = .ok pk0 ∧
        pk0.GetPublicKey.Raw.Fingerprint.val = [1, 2, 3, 4, 5, 6, 7, 8] ∧
        pk0.Raw.RawKey.val = ed.NewKeyFromSeed (List.replicate 32 0) ∧
        pk0.GetPublicKey.Raw.RawKey.val =
          (ed.NewKeyFromSeed (List.replicate 32 0)).drop 32) := by
  refine ⟨⟨rfl, PrivateKey.GetPublicKey_RawKey pk, rfl, rfl⟩, ?_⟩
  intro ed hc
  obtain ⟨hfp, hlen, hgen⟩ := GeneratePKFromSeed_of_contract ed hc seedToken0
  refine ⟨_, hgen, ?_, ?_, ?_⟩
  · show seedToken0.val.drop 32 = _
    decide
  · show ed.NewKeyFromSeed (seedToken0.val.take 32) = _
    have h : seedToken0.val.take 32 = List.replicate 32 0 := by decide
    rw [h]
  · rw [PrivateKey.GetPublicKey_RawKey]
    show (ed.NewKeyFromSeed (seedToken0.val.take 32)).drop 32 = _
    have h : seedToken0.val.take 32 = List.replicate 32 0 := by decide
    rw [h]

/-- C10 at the key `privateKey0`, which the stand-in primitive derives from `seedToken0`. -/
theorem C10_public_key_projection_witness :
    modelEd.Contract ∧
    ∃ pk0 : PrivateKey, GeneratePKFromSeed modelEd seedToken0 = .ok pk0 ∧
      pk0.GetPublicKey.Raw.Fingerprint.val = [1, 2, 3, 4, 5, 6, 7, 8] ∧
      pk0.Raw.RawKey.val = modelEd.NewKeyFromSeed (List.replicate 32 0) ∧
      pk0.GetPublicKey.Raw.RawKey.val = (modelEd.NewKeyFromSeed (List.replicate 32 0)).drop 32 :=
  ⟨modelEd_contract, (C10_public_key_projection privateKey0).2 modelEd modelEd_contract⟩

/-! ## Error texts -/

/-- A text that starts with `a` differs from `t` when the two differ within the first `n`
characters of `a`. -/
theorem append_ne_of_take (a x t : String) (n : Nat) (hn : n ≤ a.data.length)
    (h : a.data.take n ≠ t.data.take n) : a ++ x ≠ t := by
  intro e
  apply h
  rw [← e, String.data_append, List.take_append_of_le_length hn]

/-- With the Ed25519 tag on the key, no error of the signing steps is the
unknown-algorithm error. -/
theorem Message.signSteps_error_ne (ed : Ed25519) (msg : Message) (pk : PrivateKey)
    (halgo : pk.Raw.PKAlgo = _algoEd25519) :
    (Message.signSteps ed msg pk).2 ≠ some (.new "unknown signature Algo") := by
  simp only [Message.signSteps, halgo, if_true]
  split
  · rename_i e he
    simp only [sliceTo64] at he
    split at he
    · simp only [Option.some.injEq] at he
      subst he
      simp only [ne_eq, Option.some.injEq, Error.new.injEq]
      decide
    · simp at he
  · split
    · simp only [ne_eq, Option.some.injEq, Error.new.injEq]
      exact append_ne_of_take _ _ _ 1 (by decide) (by decide)
    · split
      · simp only [ne_eq, Option.some.injEq, Error.new.injEq]
        exact append_ne_of_take _ _ _ 1 (by decide) (by decide)
      · simp

/-- With another tag on the key the signing steps record the public key and the
fingerprint, and stop with the unknown-algorithm error. -/
theorem Message.signSteps_unknown_algo (ed : Ed25519) (msg : Message) (pk : PrivateKey)
    (halgo : pk.Raw.PKAlgo ≠ _algoEd25519) :
    Message.signSteps ed msg pk =
      (⟨msg.Base64, msg.Raw, msg.UntrustedComment,
          ⟨msg.Signature.Base64,
            ⟨msg.Signature.Raw.PKAlgo, pk.Raw.Fingerprint, msg.Signature.Raw.RawSig⟩⟩,
          pk.GetPublicKey⟩, some (.new "unknown signature Algo")) := by
  simp only [Message.signSteps, halgo, if_false]

/-- C11. Unknown algorithm on signing: with the raw bytes present and a key whose tag is
not the Ed25519 tag, `Sign` fails with `unknown signature Algo` and leaves
`Signature.Raw.RawSig` and `Signature.Base64` as they were; with the Ed25519 tag `Sign`
never fails with that error. -/
theorem C11_unknown_algorithm_on_signing (ed : Ed25519) (msg : Message) (pk : PrivateKey)
    (hraw : msg.Raw.isNil = false) :
    (pk.Raw.PKAlgo ≠ _algoEd25519 →
      (Message.Sign ed msg pk).2 = some (.new "unknown signature Algo") ∧
      (Message.Sign ed msg pk).1.Signature.Raw.RawSig = msg.Signature.Raw.RawSig ∧
      (Message.Sign ed msg pk).1.Signature.Base64 = msg.Signature.Base64) ∧
    (pk.Raw.PKAlgo = _algoEd25519 →
      (Message.Sign ed msg pk).2 ≠ some (.new "unknown signature Algo")) := by
  rw [Message.Sign_present ed msg pk hraw]
  refine ⟨fun h => ?_, fun h => Message.signSteps_error_ne ed msg pk h⟩
  rw [Message.signSteps_unknown_algo ed msg pk h]
  exact ⟨rfl, rfl, rfl⟩

/-- C11 at the message `hello`: the zero-value key has no Ed25519 tag, `privateKey0` has. -/
theorem C11_unknown_algorithm_on_signing_witness :
    message0.Raw.isNil = false ∧ privateKeyZero.Raw.PKAlgo ≠ _algoEd25519 ∧
    (Message.Sign modelEd message0 privateKeyZero).2 = some (.new "unknown signature Algo") ∧
    (Message.Sign modelEd message0 privateKeyZero).1.Signature.Base64 =
      message0.Signature.Base64 ∧
    (Message.Sign modelEd message0 privateKey0).2 ≠ some (.new "unknown signature Algo") :=
  have h := C11_unknown_algorithm_on_signing modelEd message0 privateKeyZero rfl
  ⟨rfl, by decide, (h.1 (by decide)).1, (h.1 (by decide)).2.2,
    (C11_unknown_algorithm_on_signing modelEd message0 privateKey0 rfl).2 rfl⟩

/-- C12 (the code departs from the claim). The guard `pk.Raw.RawKey[:] == nil` of `Sign`
is never true, a slice of an array not being `nil`, so the no-private-key error is never
given. With the zero-value key and the raw bytes present, `Sign` goes on, overwrites
`PublicKey` and the fingerprint of the signature, and fails with `unknown signature Algo`. -/
theorem C12_sign_with_zero_value_key (ed : Ed25519) (msg : Message)
    (hraw : msg.Raw.isNil = false) :
    Message.Sign ed msg privateKeyZero =
      (⟨msg.Base64, msg.Raw, msg.UntrustedComment,
          ⟨msg.Signature.Base64,
            ⟨msg.Signature.Raw.PKAlgo, ByteArr.zero 8, msg.Signature.Raw.RawSig⟩⟩,
          ⟨"", ⟨_algoEd25519, ByteArr.zero 8, ByteArr.zero 32⟩⟩⟩,
        some (.new "unknown signature Algo")) := by
  rw [Message.Sign_present ed msg _ hraw,
    Message.signSteps_unknown_algo ed msg privateKeyZero (by decide)]
  refine Prod.ext ?_ rfl
  have hk : privateKeyZero.GetPublicKey = ⟨"", ⟨_algoEd25519, ByteArr.zero 8, ByteArr.zero 32⟩⟩ := by
    decide
  simp only [hk]
  rfl

/-- C12 at the failing input `Message{Raw: []byte("hello")}` and `PrivateKey{}`: the error
is not the no-private-key error and the `PublicKey` of the message has changed. -/
theorem C12_sign_with_zero_value_key_witness :
    message1.Raw.isNil = false ∧
    (Message.Sign modelEd message1 privateKeyZero).2 ≠
      some (.new "sign failed: no private key found") ∧
    (Message.Sign modelEd message1 privateKeyZero).1.PublicKey ≠ message1.PublicKey :=
  have h := C12_sign_with_zero_value_key modelEd message1 rfl
  ⟨rfl, by rw [h]; decide, by rw [h]; decide⟩

/-- C13 (the code departs from the claim). The guard `pub.Raw.RawKey[:] == nil` of `Verify`
is never true, so the public key is never decoded: the result does not depend on
`pub.Base64`, and a public key with a zero-value `Raw` never verifies, whatever its
`Base64` holds. -/
theorem C13_verify_never_decodes_public_key (ed : Ed25519) (msg : Message) :
    (∀ (pub : PublicKey) (b : String),
      Message.Verify ed msg ⟨b, pub.Raw⟩ = Message.Verify ed msg pub) ∧
    (∀ b : String,
      (Message.Verify ed msg ⟨b, ⟨ByteArr.zero 2, ByteArr.zero 8, ByteArr.zero 32⟩⟩).2.1 =
        false) := by
  refine ⟨fun pub b => ?_, fun b => ?_⟩
  · simp only [Message.Verify, ByteArr.sliceAll_isNil, Message.verifyChecks, Bool.false_eq_true,
      if_false]
  · have hz : ByteArr.zero 2 ≠ _algoEd25519 := by decide
    have hc : ∀ m : Message, (Message.verifyChecks ed m
        ⟨b, ⟨ByteArr.zero 2, ByteArr.zero 8, ByteArr.zero 32⟩⟩).1 = false := by
      intro m
      simp only [Message.verifyChecks, hz, and_false, if_false]
      split <;> rfl
    cases hr : msg.Raw.isNil with
    | false =>
      rw [Message.Verify_present ed msg _ hr]
      exact hc msg
    | true =>
      rw [Message.Verify_absent ed msg _ hr]
      cases (dec msg.Base64).2 with
      | some e => rfl
      | none => exact hc _

/-- C13 at the failing input: the signed `hello` verifies under the loaded public key of
`privateKey0`, and not under the key that holds only its base64 text. -/
theorem C13_verify_never_decodes_public_key_witness :
    (Message.Verify modelEd (Message.Sign modelEd message0 privateKey0).1
      privateKey0.GetPublicKey.Encode.1).2 = (true, none) ∧
    (PublicKey.Decode ⟨privateKey0.GetPublicKey.Encode.1.Base64,
      ⟨ByteArr.zero 2, ByteArr.zero 8, ByteArr.zero 32⟩⟩).1 =
        privateKey0.GetPublicKey.Encode.1 ∧
    (Message.Verify modelEd (Message.Sign modelEd message0 privateKey0).1
      ⟨privateKey0.GetPublicKey.Encode.1.Base64,
        ⟨ByteArr.zero 2, ByteArr.zero 8, ByteArr.zero 32⟩⟩).2.1 = false :=
  ⟨by decide, by decide,
    (C13_verify_never_decodes_public_key modelEd
      (Message.Sign modelEd message0 privateKey0).1).2 _⟩

/-! ## What Sign and Verify do not read -/

/-- The signing steps on a message with raw bytes neither read nor change `Base64` and
`UntrustedComment`: with other values there, only these two fields of the outcome differ. -/
theorem Message.signSteps_frame (ed : Ed25519) (msg : Message) (pk : PrivateKey)
    (b c : String) (h : msg.Raw.isNil = false) :
    Message.signSteps ed ⟨b, msg.Raw, c, msg.Signature, msg.PublicKey⟩ pk =
      (⟨b, (Message.signSteps ed msg pk).1.Raw, c, (Message.signSteps ed msg pk).1.Signature,
          (Message.signSteps ed msg pk).1.PublicKey⟩, (Message.signSteps ed msg pk).2) := by
  by_cases halgo : pk.Raw.PKAlgo = _algoEd25519
  · simp only [Message.signSteps, halgo, if_true, Message.Verify_present, h,
      Signature_Encode_eq]
    generalize sliceTo64 (Slice.of (ed.Sign pk.Raw.RawKey.sliceAll.bytes msg.Raw.bytes)) = r
    obtain ⟨sig, e⟩ := r
    cases e with
    | some e => rfl
    | none =>
      simp only []
      rw [Message.verifyChecks_congr ed
        ⟨b, msg.Raw, c, ⟨msg.Signature.Base64, ⟨_algoEd25519, pk.Raw.Fingerprint, sig⟩⟩,
          pk.GetPublicKey⟩
        ⟨msg.Base64, msg.Raw, msg.UntrustedComment,
          ⟨msg.Signature.Base64, ⟨_algoEd25519, pk.Raw.Fingerprint, sig⟩⟩, pk.GetPublicKey⟩
        pk.GetPublicKey rfl rfl rfl]
      generalize Message.verifyChecks ed _ pk.GetPublicKey = vc
      obtain ⟨ok, err⟩ := vc
      cases ok <;> rfl
  · simp only [Message.signSteps, halgo, if_false]

/-- `Sign` changes neither `Base64` nor `UntrustedComment`. -/
theorem Message.Sign_keeps_texts (ed : Ed25519) (msg : Message) (pk : PrivateKey) :
    (Message.Sign ed msg pk).1.Base64 = msg.Base64 ∧
    (Message.Sign ed msg pk).1.UntrustedComment = msg.UntrustedComment := by
  cases hr : msg.Raw.isNil with
  | false =>
    rw [Message.Sign_present ed msg pk hr]
    have h := Message.signSteps_frame ed msg pk msg.Base64 msg.UntrustedComment hr
    have h1 := congrArg Prod.fst h
    simp only at h1
    have hb := congrArg Message.Base64 h1
    have hc := congrArg Message.UntrustedComment h1
    exact ⟨hb, hc⟩
  | true =>
    simp only [Message.Sign, ByteArr.sliceAll_isNil, hr, Message.Decode, Bool.false_eq_true,
      if_false, if_true]
    cases hd : (dec msg.Base64).2 with
    | some e => exact ⟨rfl, rfl⟩
    | none =>
      simp only []
      have hn := dec_ok_not_nil _ hd
      have h := Message.signSteps_frame ed
        ⟨msg.Base64, (dec msg.Base64).1, msg.UntrustedComment, msg.Signature, msg.PublicKey⟩ pk
        msg.Base64 msg.UntrustedComment hn
      have h1 := congrArg Prod.fst h
      simp only at h1
      have hb := congrArg Message.Base64 h1
      have hc := congrArg Message.UntrustedComment h1
      exact ⟨hb, hc⟩

/-! ## Files -/

theorem bytesOfString_append (a b : String) :
    (bytesOfString (a ++ b)).bytes = (bytesOfString a).bytes ++ (bytesOfString b).bytes := by
  simp [bytesOfString, Slice.bytes, String.toList]

/-- C14 (the code departs from the claim). When `Sign` succeeds, `GetSigFile` returns no
error and the bytes of `untrusted comment:`, the comment, a line feed, the `Base64` of the
signature and a line feed: no space is written between the colon and the comment, so the
file is one byte short of the one the claim describes. When `Sign` fails, `GetSigFile`
returns `nil` and an error. -/
theorem C14_sig_file_shape (ed : Ed25519) (msg : Message) (pk : PrivateKey) :
    ((Message.Sign ed msg pk).2 = none →
      (Message.GetSigFile ed msg pk).2 =
        (bytesOfString ("untrusted comment:" ++ msg.UntrustedComment ++ "\n" ++
          (Message.Sign ed msg pk).1.Signature.Base64 ++ "\n"), none) ∧
      (Message.GetSigFile ed msg pk).2.1.len + 1 =
        (bytesOfString ("untrusted comment:" ++ " " ++ msg.UntrustedComment ++ "\n" ++
          (Message.Sign ed msg pk).1.Signature.Base64 ++ "\n")).len) ∧
    (∀ e : Error, (Message.Sign ed msg pk).2 = some e →
      (Message.GetSigFile ed msg pk).2 =
        (.nil, some (.new ("generate sig file: " ++ e.text)))) := by
  have hc := (Message.Sign_keeps_texts ed msg pk).2
  constructor
  · intro hs
    have h1 : (Message.GetSigFile ed msg pk).2 =
        (bytesOfString ("untrusted comment:" ++ msg.UntrustedComment ++ "\n" ++
          (Message.Sign ed msg pk).1.Signature.Base64 ++ "\n"), none) := by
      unfold Message.GetSigFile
      revert hs hc
      generalize Message.Sign ed msg pk = r
      obtain ⟨m1, e⟩ := r
      intro hc hs
      simp only at hs hc
      subst hs
      simp only [hc, _untrustedComment, _linefeed]
    refine ⟨h1, ?_⟩
    rw [h1]
    simp only [Slice.len, bytesOfString_append, List.length_append]
    have h2 : (bytesOfString " ").bytes.length = 1 := by decide
    omega
  · intro e hs
    unfold Message.GetSigFile
    revert hs
    generalize Message.Sign ed msg pk = r
    obtain ⟨m1, e1⟩ := r
    intro hs
    simp only at hs
    subst hs
    rfl

/-- C14 at the failing input: `hello` with the comment `a comment`, signed with
`privateKey0`; the file starts `untrusted comment:a comment` and is not the file with the
space. -/
theorem C14_sig_file_shape_witness :
    (Message.Sign modelEd message0 privateKey0).2 = none ∧
    (Message.GetSigFile modelEd message0 privateKey0).2.1 =
      bytesOfString ("untrusted comment:a comment\n" ++
        (Message.Sign modelEd message0 privateKey0).1.Signature.Base64 ++ "\n") ∧
    (Message.GetSigFile modelEd message0 privateKey0).2.1 ≠
      bytesOfString ("untrusted comment: a comment\n" ++
        (Message.Sign modelEd message0 privateKey0).1.Signature.Base64 ++ "\n") :=
  have h := ((C14_sig_file_shape modelEd message0 privateKey0).1 (by decide)).1
  ⟨by decide, (congrArg Prod.fst h).trans (by decide), by rw [congrArg Prod.fst h]; decide⟩

/-- C15. Public key file shape: `pub.GetPubKeyFile(c)` returns no error and the bytes of
`untrusted comment: signify public key `, `c`, a line feed, the base64 text and a line feed,
the text being `pub.Base64` when that is not empty and the base64 of the 42-byte record of
`pub` otherwise; the receiver is a copy, nothing of the caller's key comes back changed.
`pk.GetPubKeyFile(c)` is `pk.GetPublicKey().GetPubKeyFile(c)`. -/
theorem C15_public_key_file_shape (pub : PublicKey) (pk : PrivateKey) (c : String) :
    pub.GetPubKeyFile c =
      (bytesOfString ("untrusted comment: signify public key " ++ c ++ "\n" ++
        (if pub.Base64 = "" then
          EncodeToString (pub.Raw.PKAlgo.val ++ pub.Raw.Fingerprint.val ++ pub.Raw.RawKey.val)
        else pub.Base64) ++ "\n"), none) ∧
    pk.GetPubKeyFile c = pk.GetPublicKey.GetPubKeyFile c := by
  have hlit : _untrustedComment ++ _pubUT ++ _space = "untrusted comment: signify public key " := by
    decide
  constructor
  · by_cases h : pub.Base64 = ""
    · simp only [PublicKey.GetPubKeyFile, _empty, h, if_true, PublicKey_Encode_eq, hlit,
        _linefeed]
    · simp only [PublicKey.GetPubKeyFile, _empty, h, if_false, hlit, _linefeed]
  · have hl : pk.Raw.RawKey.sliceAll.len = PrivateKeySize := pk.Raw.RawKey.property
    simp only [PrivateKey.GetPubKeyFile, hl, ne_eq, not_true_eq_false, if_false]

/-- C16, as stated, fails on a zero-length buffer that is not `nil`: `enc` gives the empty
text and no error, and so does `Message.Encode` on a message with that `Raw`. -/
theorem C16_empty_buffer_counterexample :
    enc (.of []) = ("", none) ∧
    (Message.Encode ⟨"", .of [], "", NewSignature, NewPublicKey⟩).2 = none ∧
    (Message.Encode ⟨"", .of [], "", NewSignature, NewPublicKey⟩).1.Base64 = "" := by
  decide

/-- C16, amended. `enc`, and `Message.Encode`, return an error exactly for an absent
(`nil`) buffer. When `Message.Encode` returns nil, `Base64` is the base64 text of `Raw`,
and it is empty exactly when `Raw` has no bytes. -/
theorem C16_encode_rejects_only_nil (raw : Slice) (msg : Message) :
    ((enc raw).2 ≠ none ↔ raw.isNil = true) ∧
    ((Message.Encode msg).2 ≠ none ↔ msg.Raw.isNil = true) ∧
    ((Message.Encode msg).2 = none →
      (Message.Encode msg).1.Base64 = EncodeToString msg.Raw.bytes ∧
      ((Message.Encode msg).1.Base64 = "" ↔ msg.Raw.bytes = [])) := by
  have henc : ∀ s : Slice, ((enc s).2 ≠ none ↔ s.isNil = true) := by
    intro s
    cases s <;> simp [enc, Slice.isNil]
  have hempty : ∀ bs : List Byte, (EncodeToString bs = "" ↔ bs = []) := by
    intro bs
    constructor
    · intro h
      by_contra hne
      exact EncodeToString_ne_empty bs hne h
    · intro h
      rw [h]
      rfl
  obtain ⟨b, r, c, sg, p⟩ := msg
  refine ⟨henc raw, ?_, ?_⟩
  · cases r <;> simp [Message.Encode, enc, Slice.sliceFrom, Slice.isNil]
  · cases r with
    | nil => simp [Message.Encode, enc, Slice.sliceFrom, Slice.isNil]
    | of data =>
      intro _
      simp only [Message.Encode, enc, Slice.sliceFrom, Slice.isNil, List.drop_zero,
        Bool.false_eq_true, if_false, Slice.bytes, true_and]
      exact hempty data

/-- C16, amended, at the message `hello`: encoding succeeds and the text is not empty. -/
theorem C16_encode_rejects_only_nil_witness :
    (Message.Encode message0).2 = none ∧
    (Message.Encode message0).1.Base64 = "aGVsbG8=" ∧
    ((Message.Encode message0).1.Base64 = "" ↔ message0.Raw.bytes = []) :=
  have h := (C16_encode_rejects_only_nil message0.Raw message0).2.2 (by decide)
  ⟨by decide, h.1.trans (by decide), h.2⟩

theorem dec_EncodeToString (m : List Byte) (hm : m ≠ []) :
    dec (EncodeToString m) = (.of m, none) := by
  rw [dec_of_ne_empty _ (EncodeToString_ne_empty m hm), DecodeString_EncodeToString]

/-- With the raw bytes absent `Sign` decodes `Base64` first: an error of the decoding ends
it, otherwise the signing steps run on the decoded bytes. -/
theorem Message.Sign_absent (ed : Ed25519) (msg : Message) (pk : PrivateKey)
    (h : msg.Raw.isNil = true) :
    Message.Sign ed msg pk =
      match (dec msg.Base64).2 with
      | some e =>
        ({ msg with Raw := (dec msg.Base64).1 },
          some (.new ("sign failed: no raw message and " ++ e.text)))
      | none => Message.signSteps ed { msg with Raw := (dec msg.Base64).1 } pk := by
  simp only [Message.Sign, ByteArr.sliceAll_isNil, h, Message.Decode, Bool.false_eq_true,
    if_false, if_true]
  cases (dec msg.Base64).2 <;> rfl

/-- C17. Signing an encoded-only message: for every non-empty byte string `m`, `Sign` on a
message holding only `Base64`, the base64 text of `m`, returns the error and leaves the
`Raw`, `PublicKey` and `Signature` that `Sign` returns and leaves on the message holding
`Raw = m`. When `Raw` is absent and `Base64` is empty or does not decode, `Sign` fails
with an error that starts `sign failed: no raw message and `, and leaves `PublicKey` and
`Signature` as they were. -/
theorem C17_sign_encoded_only (ed : Ed25519) (msg : Message) (pk : PrivateKey)
    (m : List Byte) (b64 : String) :
    (m ≠ [] →
      (Message.Sign ed
          ⟨EncodeToString m, .nil, msg.UntrustedComment, msg.Signature, msg.PublicKey⟩ pk).2 =
        (Message.Sign ed
          ⟨b64, .of m, msg.UntrustedComment, msg.Signature, msg.PublicKey⟩ pk).2 ∧
      (Message.Sign ed
          ⟨EncodeToString m, .nil, msg.UntrustedComment, msg.Signature, msg.PublicKey⟩ pk).1.Raw =
        (Message.Sign ed
          ⟨b64, .of m, msg.UntrustedComment, msg.Signature, msg.PublicKey⟩ pk).1.Raw ∧
      (Message.Sign ed
          ⟨EncodeToString m, .nil, msg.UntrustedComment, msg.Signature,
            msg.PublicKey⟩ pk).1.PublicKey =
        (Message.Sign ed
          ⟨b64, .of m, msg.UntrustedComment, msg.Signature, msg.PublicKey⟩ pk).1.PublicKey ∧
      (Message.Sign ed
          ⟨EncodeToString m, .nil, msg.UntrustedComment, msg.Signature,
            msg.PublicKey⟩ pk).1.Signature =
        (Message.Sign ed
          ⟨b64, .of m, msg.UntrustedComment, msg.Signature, msg.PublicKey⟩ pk).1.Signature) ∧
    (msg.Raw.isNil = true → msg.Base64 = "" ∨ (DecodeString msg.Base64).2 ≠ none →
      ∃ e : Error, (dec msg.Base64).2 = some e ∧
        (Message.Sign ed msg pk).2 =
          some (.new ("sign failed: no raw message and " ++ e.text)) ∧
        (Message.Sign ed msg pk).1.PublicKey = msg.PublicKey ∧
        (Message.Sign ed msg pk).1.Signature = msg.Signature) := by
  constructor
  · intro hm
    rw [Message.Sign_absent ed
        ⟨EncodeToString m, .nil, msg.UntrustedComment, msg.Signature, msg.PublicKey⟩ pk rfl,
      Message.Sign_present ed
        ⟨b64, .of m, msg.UntrustedComment, msg.Signature, msg.PublicKey⟩ pk rfl]
    simp only [dec_EncodeToString m hm]
    rw [Message.signSteps_frame ed
      ⟨b64, .of m, msg.UntrustedComment, msg.Signature, msg.PublicKey⟩ pk
      (EncodeToString m) msg.UntrustedComment rfl]
    exact ⟨rfl, rfl, rfl, rfl⟩
  · intro hr hbad
    have hd : (dec msg.Base64).2 ≠ none := by
      rcases hbad with h0 | h1
      · rw [h0, dec_empty]
        simp
      · by_cases h0 : msg.Base64 = ""
        · rw [h0, dec_empty]
          simp
        · rw [dec_of_ne_empty _ h0]
          exact h1
    rw [Message.Sign_absent ed msg pk hr]
    cases he : (dec msg.Base64).2 with
    | none => exact absurd he hd
    | some e => exact ⟨e, rfl, rfl, rfl, rfl⟩

/-- C17 at `hello`: the message holding only `aGVsbG8=` is signed like the one holding the
raw bytes, and a message holding only a text that does not decode is refused. -/
theorem C17_sign_encoded_only_witness :
    (Message.Sign modelEd ⟨"aGVsbG8=", .nil, "a comment", NewSignature, NewPublicKey⟩
        privateKey0).2 = none ∧
    (Message.Sign modelEd ⟨"aGVsbG8=", .nil, "a comment", NewSignature, NewPublicKey⟩
        privateKey0).1.Signature =
      (Message.Sign modelEd message0 privateKey0).1.Signature ∧
    ∃ e : Error, (dec "aGVsbG8").2 = some e ∧
      (Message.Sign modelEd ⟨"aGVsbG8", .nil, "", NewSignature, NewPublicKey⟩ privateKey0).2 =
        some (.new ("sign failed: no raw message and " ++ e.text)) ∧
      (Message.Sign modelEd ⟨"aGVsbG8", .nil, "", NewSignature, NewPublicKey⟩
        privateKey0).1.PublicKey = NewPublicKey ∧
      (Message.Sign modelEd ⟨"aGVsbG8", .nil, "", NewSignature, NewPublicKey⟩
        privateKey0).1.Signature = NewSignature :=
  have h1 := (C17_sign_encoded_only modelEd message0 privateKey0
    (bytesOfString "hello").bytes "").1 (by decide)
  ⟨h1.1.trans (by decide), h1.2.2.2,
    (C17_sign_encoded_only modelEd ⟨"aGVsbG8", .nil, "", NewSignature, NewPublicKey⟩
      privateKey0 [] "").2 rfl (Or.inr (by decide))⟩

/-- C18. The untrusted comment is not covered by the signature: on a message with another
`UntrustedComment` and the same other fields, `Sign` returns the same error and leaves the
same `Signature` (raw and base64), and `Verify` returns the same boolean and error. -/
theorem C18_comment_not_signed (ed : Ed25519) (msg : Message) (pk : PrivateKey)
    (pub : PublicKey) (c : String) :
    (Message.Sign ed { msg with UntrustedComment := c } pk).2 = (Message.Sign ed msg pk).2 ∧
    (Message.Sign ed { msg with UntrustedComment := c } pk).1.Signature =
      (Message.Sign ed msg pk).1.Signature ∧
    (Message.Verify ed { msg with UntrustedComment := c } pub).2 =
      (Message.Verify ed msg pub).2 := by
  cases hr : msg.Raw.isNil with
  | false =>
    rw [Message.Sign_present ed
        ⟨msg.Base64, msg.Raw, c, msg.Signature, msg.PublicKey⟩ pk hr,
      Message.Sign_present ed msg pk hr,
      Message.Verify_present ed
        ⟨msg.Base64, msg.Raw, c, msg.Signature, msg.PublicKey⟩ pub hr,
      Message.Verify_present ed msg pub hr,
      Message.signSteps_frame ed msg pk msg.Base64 c hr]
    exact ⟨rfl, rfl, Message.verifyChecks_congr ed _ _ pub rfl rfl rfl⟩
  | true =>
    rw [Message.Sign_absent ed
        ⟨msg.Base64, msg.Raw, c, msg.Signature, msg.PublicKey⟩ pk hr,
      Message.Sign_absent ed msg pk hr,
      Message.Verify_absent ed
        ⟨msg.Base64, msg.Raw, c, msg.Signature, msg.PublicKey⟩ pub hr,
      Message.Verify_absent ed msg pub hr]
    cases hd : (dec msg.Base64).2 with
    | some e => exact ⟨rfl, rfl, rfl⟩
    | none =>
      simp only []
      have hn := dec_ok_not_nil _ hd
      have hf := Message.signSteps_frame ed
        ⟨msg.Base64, (dec msg.Base64).1, msg.UntrustedComment, msg.Signature, msg.PublicKey⟩
        pk msg.Base64 c hn
      have h2 := congrArg Prod.snd hf
      have h1 := congrArg Message.Signature (congrArg Prod.fst hf)
      exact ⟨h2, h1, Message.verifyChecks_congr ed _ _ pub rfl rfl rfl⟩

/-- C19. Frame of `Verify`: it leaves `Signature`, `PublicKey`, `Base64` and
`UntrustedComment` of the message unchanged whatever it returns, leaves `Raw` unchanged
when `Raw` was present, and replaces an absent `Raw` by the result of decoding `Base64`. -/
theorem C19_verify_frame (ed : Ed25519) (msg : Message) (pub : PublicKey) :
    (Message.Verify ed msg pub).1.Signature = msg.Signature ∧
    (Message.Verify ed msg pub).1.PublicKey = msg.PublicKey ∧
    (Message.Verify ed msg pub).1.Base64 = msg.Base64 ∧
    (Message.Verify ed msg pub).1.UntrustedComment = msg.UntrustedComment ∧
    (msg.Raw.isNil = false → (Message.Verify ed msg pub).1 = msg) ∧
    (msg.Raw.isNil = true → (Message.Verify ed msg pub).1.Raw = (dec msg.Base64).1) := by
  cases hr : msg.Raw.isNil with
  | false =>
    rw [Message.Verify_present ed msg pub hr]
    exact ⟨rfl, rfl, rfl, rfl, fun _ => rfl, fun h => absurd h (by simp)⟩
  | true =>
    rw [Message.Verify_absent ed msg pub hr]
    cases (dec msg.Base64).2 with
    | some e => exact ⟨rfl, rfl, rfl, rfl, fun h => absurd h (by simp), fun _ => rfl⟩
    | none => exact ⟨rfl, rfl, rfl, rfl, fun h => absurd h (by simp), fun _ => rfl⟩

/-- C19 at the signed `hello`, with its raw bytes and holding only its base64 text. -/
theorem C19_verify_frame_witness :
    (Message.Verify modelEd (Message.Sign modelEd message0 privateKey0).1
        privateKey0.GetPublicKey).1 = (Message.Sign modelEd message0 privateKey0).1 ∧
    (Message.Verify modelEd ⟨"aGVsbG8=", .nil, "", NewSignature, NewPublicKey⟩
        privateKey0.GetPublicKey).1.Raw = bytesOfString "hello" :=
  ⟨(C19_verify_frame modelEd (Message.Sign modelEd message0 privateKey0).1
      privateKey0.GetPublicKey).2.2.2.2.1 (by decide),
    ((C19_verify_frame modelEd ⟨"aGVsbG8=", .nil, "", NewSignature, NewPublicKey⟩
      privateKey0.GetPublicKey).2.2.2.2.2 rfl).trans (by decide)⟩

/-- C20. `Decode` is atomic on the record: for every public key and every signature, when
`Decode` returns an error `Raw` is what it was before the call, and `Base64` is unchanged
whether `Decode` succeeds or fails. -/
theorem C20_decode_atomic (pub : PublicKey) (sig : Signature) :
    (pub.Decode.2 ≠ none → pub.Decode.1.Raw = pub.Raw) ∧
    pub.Decode.1.Base64 = pub.Base64 ∧
    (sig.Decode.2 ≠ none → sig.Decode.1.Raw = sig.Raw) ∧
    sig.Decode.1.Base64 = sig.Base64 := by
  have hp : pub.Decode.1.Base64 = pub.Base64 ∧ (pub.Decode.2 ≠ none → pub.Decode.1 = pub) := by
    by_cases hok : pub.Base64 ≠ "" ∧ (DecodeString pub.Base64).2 = none ∧
        (DecodeString pub.Base64).1.length = 42
    · obtain ⟨h0, hd, hl⟩ := hok
      rw [PublicKey_Decode_of_bytes pub _ h0 (Prod.ext rfl hd) hl]
      exact ⟨rfl, fun h => absurd rfl h⟩
    · have herr : pub.Decode.2 ≠ none := fun h => hok ((PublicKey_Decode_ok_iff pub).mp h)
      have hsame : pub.Decode.1 = pub := by
        by_cases h0 : pub.Base64 = ""
        · simp [PublicKey.Decode, h0, dec_empty]
        · cases hd : (DecodeString pub.Base64).2 with
          | some e => simp [PublicKey.Decode, dec_of_ne_empty _ h0, hd]
          | none =>
            have hl : (DecodeString pub.Base64).1.length ≠ 42 := fun hl => hok ⟨h0, hd, hl⟩
            simp [PublicKey.Decode, dec_of_ne_empty _ h0, hd, Slice.len, Slice.bytes,
              KeyAlgoSize, FingerPrintSize, PublicKeySize, hl]
      exact ⟨congrArg PublicKey.Base64 hsame, fun _ => hsame⟩
  have hs : sig.Decode.1.Base64 = sig.Base64 ∧ (sig.Decode.2 ≠ none → sig.Decode.1 = sig) := by
    by_cases hok : sig.Base64 ≠ "" ∧ (DecodeString sig.Base64).2 = none ∧
        (DecodeString sig.Base64).1.length = 74
    · obtain ⟨h0, hd, hl⟩ := hok
      rw [Signature_Decode_of_bytes sig _ h0 (Prod.ext rfl hd) hl]
      exact ⟨rfl, fun h => absurd rfl h⟩
    · have herr : sig.Decode.2 ≠ none := fun h => hok ((Signature_Decode_ok_iff sig).mp h)
      have hsame : sig.Decode.1 = sig := by
        by_cases h0 : sig.Base64 = ""
        · simp [Signature.Decode, h0, dec_empty]
        · cases hd : (DecodeString sig.Base64).2 with
          | some e => simp [Signature.Decode, dec_of_ne_empty _ h0, hd]
          | none =>
            have hl : (DecodeString sig.Base64).1.length ≠ 74 := fun hl => hok ⟨h0, hd, hl⟩
            simp [Signature.Decode, dec_of_ne_empty _ h0, hd, Slice.len, Slice.bytes,
              KeyAlgoSize, FingerPrintSize, SignatureSize, hl]
      exact ⟨congrArg Signature.Base64 hsame, fun _ => hsame⟩
  exact ⟨fun h => congrArg PublicKey.Raw (hp.2 h), hp.1,
    fun h => congrArg Signature.Raw (hs.2 h), hs.1⟩

/-- C20 at a public key and a signature whose text decodes to five bytes: both are refused
and keep their records. -/
theorem C20_decode_atomic_witness :
    (PublicKey.Decode ⟨"aGVsbG8=", privateKey0.GetPublicKey.Raw⟩).2 ≠ none ∧
    (PublicKey.Decode ⟨"aGVsbG8=", privateKey0.GetPublicKey.Raw⟩).1.Raw =
      privateKey0.GetPublicKey.Raw ∧
    (Signature.Decode ⟨"aGVsbG8=", NewSignature.Raw⟩).2 ≠ none ∧
    (Signature.Decode ⟨"aGVsbG8=", NewSignature.Raw⟩).1.Raw = NewSignature.Raw :=
  have h := C20_decode_atomic ⟨"aGVsbG8=", privateKey0.GetPublicKey.Raw⟩
    ⟨"aGVsbG8=", NewSignature.Raw⟩
  ⟨by decide, h.1 (by decide), by decide, h.2.2.1 (by decide)⟩

end Signify
